import Mathlib

/-!
Verification development for the metadata-generation application
(`streamlit_app.py`).  The Python source is shallowly embedded: Python
strings are `List Char` (ASCII behaviour is modelled for `lower`, `\d`,
`\w`, `\s`, which is what the regexes and inputs of interest use), Python
dictionaries holding the metadata record are an explicit JSON-value type,
and the nondeterministic environment inputs (`time.strftime`,
`time.time() - start_time`, availability and result of the optional
`textstat` library) are parameters of the embedded generator.

`list(set(...))` (Python set iteration order is unspecified) is modelled
as first-occurrence deduplication; every property proved or refuted below
is insensitive to the ordering of the deduplicated list.
-/

/-- Python `str.lower` on one character (ASCII range, as exercised here). -/
def pyCharLower (c : Char) : Char :=
  if 'A' ≤ c ∧ c ≤ 'Z' then Char.ofNat (c.toNat + 32) else c

/-- Python `str.lower`. -/
def pyLower (s : List Char) : List Char :=
  s.map pyCharLower

/-- Python `str.split()` / `\s` whitespace class (ASCII members). -/
def pyIsSpace (c : Char) : Bool :=
  c = ' ' ∨ c = '\t' ∨ c = '\n' ∨ c = '\r' ∨ c = '\x0b' ∨ c = '\x0c'

/-- Python `text.split()`: split on whitespace runs, no empty pieces. -/
def pySplitWs (s : List Char) : List (List Char) :=
  (s.splitOnP pyIsSpace).filter (· ≠ [])

/-- Strip characters satisfying `p` from both ends (Python `str.strip`). -/
def pyStripP (p : Char → Bool) (s : List Char) : List Char :=
  ((s.dropWhile p).reverse.dropWhile p).reverse

/-- Python `s.strip()` (whitespace strip). -/
def pyStrip (s : List Char) : List Char :=
  pyStripP pyIsSpace s

/-- Python `s.strip('.,!?;:"()[]')`, as used on keyword candidates. -/
def pyStripPunct (s : List Char) : List Char :=
  pyStripP (fun c => c ∈ ".,!?;:\x22()[]".toList) s

/-- Python substring test `needle in hay`. -/
def containsSub (needle : List Char) : List Char → Bool
  | [] => needle.isEmpty
  | c :: rest => needle.isPrefixOf (c :: rest) || containsSub needle rest

/--
`preprocess_text` (streamlit_app.py:77-83): empty text maps to empty
text, otherwise whitespace is collapsed via `' '.join(text.split())`.
-/
def preprocess_text (text : List Char) : List Char :=
  if text = [] then []
  else List.intercalate [' '] (pySplitWs text)

/--
`classify_document_type` (streamlit_app.py:85-101): keyword-membership
tests against fixed lexicons, first match wins.
-/
def classify_document_type (text : List Char) : List Char :=
  if text = [] then "Unknown".toList
  else
    let text_lower := pyLower text
    if (["abstract", "introduction", "methodology", "conclusion", "references"].map
        String.toList).any (fun w => containsSub w text_lower) then
      "Academic Paper".toList
    else if (["executive summary", "business", "market", "strategy"].map
        String.toList).any (fun w => containsSub w text_lower) then
      "Business Document".toList
    else if (["chapter", "novel", "story"].map
        String.toList).any (fun w => containsSub w text_lower) then
      "Literary Work".toList
    else if (pySplitWs text).length < 100 then
      "Short Document".toList
    else
      "General Document".toList

/-- The fixed stoplist of `generate_basic_metadata_from_text` (line 177). -/
def stop_words : List (List Char) :=
  (["the", "and", "are", "for", "with", "this", "that", "from", "they", "have",
    "been", "will", "said", "each", "which", "their", "time", "but", "all",
    "can", "may", "was", "were", "not", "you", "your"]).map String.toList

/--
`words_clean` (line 178): keep words longer than 3 characters whose
lowercase form is not a stop word, then lowercase and strip punctuation.
The stoplist test happens before punctuation stripping, exactly as in the
source.
-/
def words_clean (words : List (List Char)) : List (List Char) :=
  (words.filter (fun w => decide (3 < w.length ∧ pyLower w ∉ stop_words))).map
    (fun w => pyStripPunct (pyLower w))

/-- First-occurrence deduplication (insertion order of a Python dict/Counter). -/
def uniqFirstAux (seen : List (List Char)) : List (List Char) → List (List Char)
  | [] => []
  | x :: xs =>
    if x ∈ seen then uniqFirstAux seen xs
    else x :: uniqFirstAux (x :: seen) xs

/-- First-occurrence deduplication, starting from no seen elements. -/
def uniqFirst (l : List (List Char)) : List (List Char) :=
  uniqFirstAux [] l

/-- Stable descending insertion by `cnt` (one step). -/
def insertDesc (cnt : List Char → Nat) (a : List Char) : List (List Char) → List (List Char)
  | [] => [a]
  | b :: l => if cnt b ≤ cnt a then a :: b :: l else b :: insertDesc cnt a l

/-- Stable descending sort by `cnt`, matching Python sorted/reverse order. -/
def sortDesc (cnt : List Char → Nat) : List (List Char) → List (List Char)
  | [] => []
  | a :: l => insertDesc cnt a (sortDesc cnt l)

/--
`Counter(words_clean).most_common(5)` keys (line 179-180): count
frequencies, order keys by descending count — ties broken by first
occurrence, which is the documented `most_common` behaviour — and keep
the first five.
-/
def most_common_5 (l : List (List Char)) : List (List Char) :=
  (sortDesc (fun w => l.count w) (uniqFirst l)).take 5

/-- `key_topics` as computed from the split word list (lines 176-182). -/
def key_topics_of (words : List (List Char)) : List (List Char) :=
  most_common_5 (words_clean words)

/-- `\w` word-character class (ASCII members), as used by `\b`. -/
def isWordChar (c : Char) : Bool :=
  c.isAlpha || c.isDigit || c = '_'

/-- Whether the next character position is a word character (false at end). -/
def headIsWord : List Char → Bool
  | [] => false
  | c :: _ => isWordChar c

/-- Whether the position is a word boundary seen from a word character
(the following character is absent or not a word character). -/
def headNonWord (l : List Char) : Bool :=
  !headIsWord l

/--
One attempted match of `\b\d+(?:\.\d+)?%\b` (streamlit_app.py:197) at the
head of `l`, which the scanner only calls at a digit preceded by a
non-word position.  Returns the match length.  The trailing `\b` sits
after the non-word character `%`, so it requires a word character next;
greedy `\d+` cannot usefully backtrack because giving back a digit leaves
a digit where `%` is required.
-/
def tryPercent (l : List Char) : Option Nat :=
  let d := l.takeWhile Char.isDigit
  if d = [] then none
  else
    match l.drop d.length with
    | '.' :: r2 =>
      let f := r2.takeWhile Char.isDigit
      if f = [] then none
      else
        match r2.drop f.length with
        | '%' :: r3 => if headIsWord r3 then some (d.length + 1 + f.length + 1) else none
        | _ => none
    | '%' :: r3 => if headIsWord r3 then some (d.length + 1) else none
    | _ => none

/--
One attempted match of the date regex of line 193 — two digit-group
alternatives `\b\d{1,2} sep \d{1,2} sep \d{2,4}\b` (where `sep` is the
class holding a slash and a dash) and `\b\d{4}\b` — at the head of
`l` (a digit at a boundary).  Each `\d{..}` faces a maximal digit run;
backtracking inside a run always leaves a digit where a separator or a
boundary is required, so an alternative succeeds exactly when the run
lengths fit the counters and the final run is followed by a non-word
position.
-/
def tryDate (l : List Char) : Option Nat :=
  let d1 := l.takeWhile Char.isDigit
  if d1 = [] then none
  else
    let alt1 : Option Nat :=
      if d1.length ≤ 2 then
        match l.drop d1.length with
        | c :: r2 =>
          if c = '/' ∨ c = '-' then
            let d2 := r2.takeWhile Char.isDigit
            if d2 = [] ∨ 2 < d2.length then none
            else
              match r2.drop d2.length with
              | c2 :: r3 =>
                if c2 = '/' ∨ c2 = '-' then
                  let d3 := r3.takeWhile Char.isDigit
                  if 2 ≤ d3.length ∧ d3.length ≤ 4 ∧ headNonWord (r3.drop d3.length) then
                    some (d1.length + 1 + d2.length + 1 + d3.length)
                  else none
                else none
              | [] => none
          else none
        | [] => none
      else none
    match alt1 with
    | some k => some k
    | none => if d1.length = 4 ∧ headNonWord (l.drop 4) then some 4 else none

/-- `[A-Z][a-z]+` at the head of `l` (maximal lowercase run); match length. -/
def tryCapWord (l : List Char) : Option Nat :=
  match l with
  | [] => none
  | c :: rest =>
    if c.isUpper then
      let low := rest.takeWhile Char.isLower
      if low = [] then none else some (1 + low.length)
    else none

/--
Greedy extension `(?:\s+[A-Z][a-z]+)*\b` of the person regex (line 189)
after an accepted capitalized word.  Returns the accepted extension
length.  If the final word is followed by a word character the trailing
`\b` fails and the regex engine drops the last group repetition (its
internal positions all face word characters), ending after the previous
word where whitespace guarantees the boundary; a single word followed by
a word character fails altogether (`none`).
-/
def personChain (fuel : Nat) (l : List Char) : Option Nat :=
  match fuel with
  | 0 => if headNonWord l then some 0 else none
  | fuel + 1 =>
    let ws := l.takeWhile pyIsSpace
    if ws = [] then (if headNonWord l then some 0 else none)
    else
      match tryCapWord (l.drop ws.length) with
      | some k =>
        match personChain fuel (l.drop (ws.length + k)) with
        | some m => some (ws.length + k + m)
        | none => some 0
      | none => if headNonWord l then some 0 else none

/--
One attempted match of `\b[A-Z][a-z]+(?:\s+[A-Z][a-z]+)*\b` (line 189)
at the head of `l` (an uppercase letter at a boundary).
-/
def tryPerson (fuel : Nat) (l : List Char) : Option Nat :=
  match tryCapWord l with
  | some k =>
    match personChain fuel (l.drop k) with
    | some m => some (k + m)
    | none => none
  | none => none

/--
`re.findall` scan: at each position whose previous character is not a
word character and whose character satisfies `start`, attempt a match;
on success emit it and resume after it (`afterWord` reports whether the
last character of any match is a word character), otherwise advance one
character.  `fuel` bounds the recursion; the callers pass the text
length, which every step strictly consumes.
-/
def reScan (tryM : List Char → Option Nat) (start : Char → Bool) (afterWord : Bool) :
    Nat → Bool → List Char → List (List Char)
  | 0, _, _ => []
  | _ + 1, _, [] => []
  | fuel + 1, prevWord, c :: rest =>
    if !prevWord && start c then
      match tryM (c :: rest) with
      | some k =>
        (c :: rest).take k :: reScan tryM start afterWord fuel afterWord ((c :: rest).drop k)
      | none => reScan tryM start afterWord fuel (isWordChar c) rest
    else reScan tryM start afterWord fuel (isWordChar c) rest

/-- `re.findall(r'\b[A-Z][a-z]+(?:\s+[A-Z][a-z]+)*\b', text)` (line 189). -/
def findCapitalized (text : List Char) : List (List Char) :=
  reScan (tryPerson text.length) Char.isUpper true text.length false text

/-- The `re.findall` scan of line 193 with the date regex of `tryDate`. -/
def findDates (text : List Char) : List (List Char) :=
  reScan tryDate Char.isDigit true text.length false text

/-- `re.findall(r'\b\d+(?:\.\d+)?%\b', text)` (line 197). -/
def findPercentages (text : List Char) : List (List Char) :=
  reScan tryPercent Char.isDigit false text.length false text

/--
The summary construction for non-empty preprocessed text
(streamlit_app.py:168-171): strip each period-separated piece, drop the
empty ones, join the first two with `'. '` plus a final period — or take
the first 200 characters when no piece survives — then append `"..."`
when the result exceeds 200 characters.
-/
def sentencesOf (text : List Char) : List (List Char) :=
  ((text.splitOn '.').map pyStrip).filter (· ≠ [])

/-- `summary_text` of line 170: first two sentences joined and closed with
a period, or the first 200 characters when no sentence survives. -/
def summary_text (text : List Char) : List Char :=
  if sentencesOf text ≠ [] then List.intercalate ". ".toList ((sentencesOf text).take 2) ++ ['.']
  else text.take 200

/-- `summary` for the non-empty branch (lines 169-171). -/
def summaryOf (text : List Char) : List Char :=
  if 200 < (summary_text text).length then summary_text text ++ "...".toList
  else summary_text text

/--
`Path(filename).suffix`: the final path component's extension — the part
of the name from its last dot, provided that dot is neither the first
nor the last character of the name.
-/
def pathSuffix (filename : List Char) : List Char :=
  let name := ((filename.splitOn '/').filter (· ≠ [])).getLastD []
  let i := name.length - 1 - (name.reverse.takeWhile (· ≠ '.')).length
  if (name.reverse.takeWhile (· ≠ '.')).length = name.length then []
  else if 0 < i ∧ i < name.length - 1 then name.drop i
  else []

/--
JSON-compatible values: the shape of the Python metadata dictionary and
of the values `json.dumps` at line 414 serializes.  Floats are modelled
as exact decimals `m / 10 ^ e` (Python guarantees that the shortest-repr
decimal written by `dumps` reads back as the same float, which this
decimal model captures exactly); the record contains no booleans or
nulls, so they are omitted.
-/
inductive JVal where
  | jint (n : Int)
  | jfloat (m : Int) (e : Nat)
  | jstr (s : List Char)
  | jarr (xs : List JVal)
  | jobj (kvs : List (List Char × JVal))
deriving Repr

/-- Python dict assignment on a string-keyed dict: replace in place,
append when the key is new. -/
def objSetKey (k : List Char) (v : JVal) : List (List Char × JVal) → List (List Char × JVal)
  | [] => [(k, v)]
  | (k0, v0) :: rest =>
    if k0 = k then (k0, v) :: rest else (k0, v0) :: objSetKey k v rest

/-- `d[k] = v` on a JSON object (identity on non-objects, never reached). -/
def objSet (o : JVal) (k : List Char) (v : JVal) : JVal :=
  match o with
  | JVal.jobj kvs => JVal.jobj (objSetKey k v kvs)
  | _ => o

/-- `d[k]` on a JSON object. -/
def objGet (o : JVal) (k : List Char) : Option JVal :=
  match o with
  | JVal.jobj kvs => lookupKey k kvs
  | _ => none
where
  lookupKey (k : List Char) : List (List Char × JVal) → Option JVal
    | [] => none
    | (k0, v0) :: rest => if k0 = k then some v0 else lookupKey k rest

/-- `d[k1][k2] = v`. -/
def objSet2 (o : JVal) (k1 k2 : List Char) (v : JVal) : JVal :=
  match objGet o k1 with
  | some inner => objSet o k1 (objSet inner k2 v)
  | none => o

/-- `d[k1][k2]`. -/
def objGet2 (o : JVal) (k1 k2 : List Char) : Option JVal :=
  match objGet o k1 with
  | some inner => objGet inner k2
  | none => none

/-- `d[k1][k2][k3]`. -/
def objGet3 (o : JVal) (k1 k2 k3 : List Char) : Option JVal :=
  match objGet2 o k1 k2 with
  | some inner => objGet inner k3
  | none => none

/-- The group and field names of an object. -/
def objKeys (o : JVal) : List (List Char) :=
  match o with
  | JVal.jobj kvs => kvs.map Prod.fst
  | _ => []

/-- `create_metadata_schema` (streamlit_app.py:103-129). -/
def create_metadata_schema : JVal :=
  JVal.jobj
    [("basic_info".toList, JVal.jobj
        [("filename".toList, JVal.jstr []),
         ("file_type".toList, JVal.jstr []),
         ("file_size".toList, JVal.jint 0),
         ("creation_date".toList, JVal.jstr []),
         ("processing_date".toList, JVal.jstr [])]),
     ("content_analysis".toList, JVal.jobj
        [("word_count".toList, JVal.jint 0),
         ("character_count".toList, JVal.jint 0),
         ("document_type".toList, JVal.jstr []),
         ("readability_score".toList, JVal.jint 0)]),
     ("semantic_data".toList, JVal.jobj
        [("summary".toList, JVal.jstr []),
         ("key_topics".toList, JVal.jarr []),
         ("entities".toList, JVal.jobj [])]),
     ("technical_metadata".toList, JVal.jobj
        [("extraction_method".toList, JVal.jstr []),
         ("processing_time".toList, JVal.jint 0),
         ("confidence_score".toList, JVal.jint 0)])]

/--
The entity dictionary when the text is empty: the initialization of line
185, which the `if text:` block never touches.
-/
def entities_empty : JVal :=
  JVal.jobj [("PERSON".toList, JVal.jarr []), ("ORG".toList, JVal.jarr []),
             ("DATE".toList, JVal.jarr []), ("PERCENT".toList, JVal.jarr [])]

/--
The entity dictionary for non-empty text (lines 185-198): the PERSON scan
deduplicated and cut to five, the DATE scan deduplicated and cut to
three, ORG untouched, and the PERCENT scan deduplicated with no cut (the
source has no slice on line 198).
-/
def entities_of (text : List Char) : JVal :=
  JVal.jobj
    [("PERSON".toList, JVal.jarr (((uniqFirst (findCapitalized text)).take 5).map JVal.jstr)),
     ("ORG".toList, JVal.jarr []),
     ("DATE".toList, JVal.jarr (((uniqFirst (findDates text)).take 3).map JVal.jstr)),
     ("PERCENT".toList, JVal.jarr ((uniqFirst (findPercentages text)).map JVal.jstr))]

/--
`generate_basic_metadata_from_text` (streamlit_app.py:131-207).
Environment inputs are parameters: `reada` is the `textstat` situation —
`none` when the library is missing or raises (score set to `0`), `some
score` when `textstat.flesch_reading_ease` would return the decimal
`score`; `procDate` is `time.strftime(...)`; `elapsed` is the decimal
value of `time.time() - start_time`.  Each statement of the source is
one dictionary update, in source order.
-/
def generate_basic_metadata_from_text (reada : Option (Int × Nat)) (procDate : List Char)
    (elapsed : Int × Nat) (text0 filename : List Char) : JVal :=
  let metadata := create_metadata_schema
  let metadata := objSet2 metadata "basic_info".toList "filename".toList (JVal.jstr filename)
  let metadata := objSet2 metadata "basic_info".toList "file_type".toList
    (JVal.jstr (pathSuffix filename))
  let metadata := objSet2 metadata "basic_info".toList "processing_date".toList
    (JVal.jstr procDate)
  let text := if text0 = [] then [] else preprocess_text text0
  let words := if text = [] then [] else pySplitWs text
  let metadata := objSet2 metadata "content_analysis".toList "word_count".toList
    (JVal.jint words.length)
  let metadata := objSet2 metadata "content_analysis".toList "character_count".toList
    (JVal.jint text.length)
  let metadata := objSet2 metadata "content_analysis".toList "document_type".toList
    (JVal.jstr (classify_document_type text))
  let metadata := objSet2 metadata "content_analysis".toList "readability_score".toList
    (match reada with
     | some score => if text = [] ∨ pyStrip text = [] then JVal.jint 0
                     else JVal.jfloat score.1 score.2
     | none => JVal.jint 0)
  let metadata := objSet2 metadata "semantic_data".toList "summary".toList
    (if text = [] then JVal.jstr "No text content extracted".toList
     else JVal.jstr (summaryOf text))
  let metadata := objSet2 metadata "semantic_data".toList "key_topics".toList
    (if text = [] then JVal.jarr []
     else JVal.jarr ((key_topics_of words).map JVal.jstr))
  let entities := if text = [] then entities_empty else entities_of text
  let metadata := objSet2 metadata "semantic_data".toList "entities".toList entities
  let metadata := objSet2 metadata "technical_metadata".toList "extraction_method".toList
    (JVal.jstr "Streamlit interface".toList)
  let metadata := objSet2 metadata "technical_metadata".toList "processing_time".toList
    (JVal.jfloat elapsed.1 elapsed.2)
  let metadata := objSet2 metadata "technical_metadata".toList "confidence_score".toList
    (if text = [] then JVal.jfloat 1 1 else JVal.jfloat 8 1)
  metadata

/--
The environment seen by `extract_pdf_text` / `extract_docx_text`
(streamlit_app.py:44-75): the library call either assembles the raw text
(pages or paragraphs joined with newlines), raises `ImportError` because
the optional dependency is missing, or raises some other exception whose
message is `msg`.  The `try/except` ladder of the source maps each
outcome to a returned string, so the embedded functions are total: no
exception propagates.
-/
inductive ExtractOutcome where
  | ok (raw : List Char)
  | importError
  | exc (msg : List Char)

/-- `extract_pdf_text` (streamlit_app.py:44-59). -/
def extract_pdf_text : ExtractOutcome → List Char
  | ExtractOutcome.ok raw => pyStrip raw
  | ExtractOutcome.importError =>
    "[PDF extraction requires PyPDF2 library - install with: pip install PyPDF2]".toList
  | ExtractOutcome.exc msg => "[PDF extraction failed: ".toList ++ msg ++ [']']

/-- `extract_docx_text` (streamlit_app.py:61-75). -/
def extract_docx_text : ExtractOutcome → List Char
  | ExtractOutcome.ok raw => pyStrip raw
  | ExtractOutcome.importError =>
    "[DOCX extraction requires python-docx library - install with: pip install python-docx]".toList
  | ExtractOutcome.exc msg => "[DOCX extraction failed: ".toList ++ msg ++ [']']

/-- The preprocessed text of `generate_basic_metadata_from_text` (line 143). -/
def gmText (text0 : List Char) : List Char :=
  if text0 = [] then [] else preprocess_text text0

/-- The word list of `generate_basic_metadata_from_text` (line 146). -/
def gmWords (text0 : List Char) : List (List Char) :=
  if gmText text0 = [] then [] else pySplitWs (gmText text0)

/--
The record `generate_basic_metadata_from_text` returns, written as one
explicit object: the result of unfolding the update chain on the schema.
`generate_norm` below proves it equal (definitionally) to the generator,
so the per-field claims can be read off without re-reducing the chain.
-/
def gmExplicit (reada : Option (Int × Nat)) (procDate : List Char)
    (elapsed : Int × Nat) (text0 filename : List Char) : JVal :=
  JVal.jobj
    [("basic_info".toList, JVal.jobj
        [("filename".toList, JVal.jstr filename),
         ("file_type".toList, JVal.jstr (pathSuffix filename)),
         ("file_size".toList, JVal.jint 0),
         ("creation_date".toList, JVal.jstr []),
         ("processing_date".toList, JVal.jstr procDate)]),
     ("content_analysis".toList, JVal.jobj
        [("word_count".toList, JVal.jint (gmWords text0).length),
         ("character_count".toList, JVal.jint (gmText text0).length),
         ("document_type".toList, JVal.jstr (classify_document_type (gmText text0))),
         ("readability_score".toList,
          match reada with
          | some score => if gmText text0 = [] ∨ pyStrip (gmText text0) = [] then JVal.jint 0
                          else JVal.jfloat score.1 score.2
          | none => JVal.jint 0)]),
     ("semantic_data".toList, JVal.jobj
        [("summary".toList,
          if gmText text0 = [] then JVal.jstr "No text content extracted".toList
          else JVal.jstr (summaryOf (gmText text0))),
         ("key_topics".toList,
          if gmText text0 = [] then JVal.jarr []
          else JVal.jarr ((key_topics_of (gmWords text0)).map JVal.jstr)),
         ("entities".toList,
          if gmText text0 = [] then entities_empty else entities_of (gmText text0))]),
     ("technical_metadata".toList, JVal.jobj
        [("extraction_method".toList, JVal.jstr "Streamlit interface".toList),
         ("processing_time".toList, JVal.jfloat elapsed.1 elapsed.2),
         ("confidence_score".toList,
          if gmText text0 = [] then JVal.jfloat 1 1 else JVal.jfloat 8 1)])]

/-! JSON serialization (`json.dumps(metadata, indent=2)`, line 414) and
parsing (`json.loads`), embedded over `JVal`.  `dumps` follows the
Python encoder: ASCII output with `\uXXXX` escapes (surrogate pairs
beyond the BMP), two-space indentation, `", "`-free separators
(`",\n"`-indent between items, `": "` inside members), decimals written
exactly.  The parser is a recursive-descent reader of the value grammar
`dumps` emits (strings with the full escape set, signed decimal numbers,
arrays, objects); like `json.loads` it skips whitespace around tokens
and rejects trailing garbage.  Exponent number forms, `true`, `false`
and `null` never occur in a dumped record and are not modelled. -/

/-- The whitespace `json.loads` skips. -/
def jsonWsChar (c : Char) : Bool :=
  c = ' ' ∨ c = '\t' ∨ c = '\n' ∨ c = '\r'

/-- Skip leading JSON whitespace. -/
def skipWs (l : List Char) : List Char :=
  l.dropWhile jsonWsChar

/-- Whether a list starts with the given character. -/
def headEq (l : List Char) (c : Char) : Bool :=
  match l with
  | d :: _ => d == c
  | [] => false

/-- The decimal digit character for `d < 10`. -/
def digitChar (d : Nat) : Char :=
  Char.ofNat (48 + d)

/-- Decimal digits of `n`, most significant first; `fuel` bounds the
recursion and any `fuel > n` is enough. -/
def natDigitsAux : Nat → Nat → List Char
  | 0, _ => []
  | fuel + 1, n =>
    if n < 10 then [digitChar n]
    else natDigitsAux fuel (n / 10) ++ [digitChar (n % 10)]

/-- Decimal digits of `n` (Python `repr` of a nonnegative int). -/
def natToDigits (n : Nat) : List Char :=
  natDigitsAux (n + 1) n

/-- The number a digit run denotes. -/
def digitsToNat (ds : List Char) : Nat :=
  ds.foldl (fun a c => a * 10 + (c.toNat - 48)) 0

/-- Exactly `e` decimal digits of `b mod 10 ^ e`, zero-padded: the
fraction part of an exact decimal. -/
def fracDigits : Nat → Nat → List Char
  | 0, _ => []
  | e + 1, b => fracDigits e (b / 10) ++ [digitChar (b % 10)]

/-- `repr` of an int, as `dumps` writes it. -/
def intRepr (n : Int) : List Char :=
  (if n < 0 then ['-'] else []) ++ natToDigits n.natAbs

/-- The exact decimal `m / 10 ^ e` with `e` fraction digits, as `dumps`
writes the modelled float. -/
def floatRepr (m : Int) (e : Nat) : List Char :=
  (if m < 0 then ['-'] else []) ++
    natToDigits (m.natAbs / 10 ^ e) ++ '.' :: fracDigits e m.natAbs

/-- Lowercase hex digit for `d < 16`, as Python's `%04x` writes it. -/
def hexDigitChar (d : Nat) : Char :=
  if d < 10 then Char.ofNat (48 + d) else Char.ofNat (87 + d)

/-- Four lowercase hex digits of `n < 0x10000`. -/
def hex4 (n : Nat) : List Char :=
  [hexDigitChar (n / 4096 % 16), hexDigitChar (n / 256 % 16),
   hexDigitChar (n / 16 % 16), hexDigitChar (n % 16)]

/-- The value of one hex digit (either case), as `json.loads` reads it. -/
def hexVal (c : Char) : Option Nat :=
  if '0' ≤ c ∧ c ≤ '9' then some (c.toNat - 48)
  else if 'a' ≤ c ∧ c ≤ 'f' then some (c.toNat - 87)
  else if 'A' ≤ c ∧ c ≤ 'F' then some (c.toNat - 55)
  else none

/--
One character of `json.dumps` ASCII string output: the two-character
escapes of the encoder's table, printable ASCII verbatim, and `\uXXXX`
otherwise — as a surrogate pair for code points beyond the BMP.
-/
def escChar (c : Char) : List Char :=
  if c = '\x22' then ['\\', '\x22']
  else if c = '\\' then ['\\', '\\']
  else if c = '\n' then ['\\', 'n']
  else if c = '\t' then ['\\', 't']
  else if c = '\r' then ['\\', 'r']
  else if c = '\x08' then ['\\', 'b']
  else if c = '\x0c' then ['\\', 'f']
  else if 0x20 ≤ c.toNat ∧ c.toNat ≤ 0x7e then [c]
  else if c.toNat < 0x10000 then '\\' :: 'u' :: hex4 c.toNat
  else
    '\\' :: 'u' :: hex4 (0xd800 + (c.toNat - 0x10000) / 0x400) ++
      '\\' :: 'u' :: hex4 (0xdc00 + (c.toNat - 0x10000) % 0x400)

/-- The escaped body of a dumped string. -/
def escapeStr (s : List Char) : List Char :=
  (s.map escChar).flatten

/-- A dumped string with its quotes. -/
def dumpStr (s : List Char) : List Char :=
  '\x22' :: escapeStr s ++ ['\x22']

/-- Newline plus `ind` spaces: the separator `indent=2` emits. -/
def nlInd (ind : Nat) : List Char :=
  '\n' :: List.replicate ind ' '

mutual

/-- `json.dumps` with `indent=2`, at indentation level `ind`. -/
def dumpsVal : Nat → JVal → List Char
  | _, JVal.jint n => intRepr n
  | _, JVal.jfloat m e => floatRepr m e
  | _, JVal.jstr s => dumpStr s
  | _, JVal.jarr [] => ['[', ']']
  | ind, JVal.jarr (x :: xs) =>
    '[' :: nlInd (ind + 2) ++ dumpsVal (ind + 2) x ++ dumpsItems (ind + 2) xs ++
      nlInd ind ++ [']']
  | _, JVal.jobj [] => ['\x7b', '\x7d']
  | ind, JVal.jobj ((k, v) :: kvs) =>
    '\x7b' :: nlInd (ind + 2) ++ dumpStr k ++ ':' :: ' ' :: dumpsVal (ind + 2) v ++
      dumpsMembers (ind + 2) kvs ++ nlInd ind ++ ['\x7d']

/-- The remaining array items, each preceded by a comma and a newline-indent. -/
def dumpsItems : Nat → List JVal → List Char
  | _, [] => []
  | ind, x :: xs => ',' :: nlInd ind ++ dumpsVal ind x ++ dumpsItems ind xs

/-- The remaining object members, each preceded by a comma and a newline-indent. -/
def dumpsMembers : Nat → List (List Char × JVal) → List Char
  | _, [] => []
  | ind, (k, v) :: kvs =>
    ',' :: nlInd ind ++ dumpStr k ++ ':' :: ' ' :: dumpsVal ind v ++ dumpsMembers ind kvs

end

mutual

/-- Fuel sufficient for `parseVal` on the dump of a value. -/
def needJ : JVal → Nat
  | JVal.jarr xs => 1 + needItems xs
  | JVal.jobj kvs => 1 + needMembers kvs
  | _ => 1

/-- Fuel sufficient for `parseItems` on dumped items. -/
def needItems : List JVal → Nat
  | [] => 0
  | x :: xs => 1 + max (needJ x) (needItems xs)

/-- Fuel sufficient for `parseMembers` on dumped members. -/
def needMembers : List (List Char × JVal) → Nat
  | [] => 0
  | (_, v) :: kvs => 1 + max (needJ v) (needMembers kvs)

end

mutual

/-- Every modelled float in the value has at least one fraction digit —
what `repr` of a Python float guarantees. -/
def canonV : JVal → Prop
  | JVal.jfloat _ e => 1 ≤ e
  | JVal.jarr xs => canonItems xs
  | JVal.jobj kvs => canonMembers kvs
  | _ => True

/-- `canonV` over array items. -/
def canonItems : List JVal → Prop
  | [] => True
  | x :: xs => canonV x ∧ canonItems xs

/-- `canonV` over object member values. -/
def canonMembers : List (List Char × JVal) → Prop
  | [] => True
  | (_, v) :: kvs => canonV v ∧ canonMembers kvs

end

/--
A `\uXXXX` payload after the `u`: four hex digits, and for a high
surrogate the following `\uXXXX` low surrogate.  Returns the decoded
character and how many input characters were consumed (4 or 10); a lone
surrogate is rejected (the encoder never writes one for a well-formed
string).
-/
def parseU : List Char → Option (Char × Nat)
  | h1 :: h2 :: h3 :: h4 :: r3 =>
    match hexVal h1, hexVal h2, hexVal h3, hexVal h4 with
    | some v1, some v2, some v3, some v4 =>
      if 0xd800 ≤ ((v1 * 16 + v2) * 16 + v3) * 16 + v4 ∧
          ((v1 * 16 + v2) * 16 + v3) * 16 + v4 < 0xdc00 then
        match r3 with
        | '\\' :: 'u' :: g1 :: g2 :: g3 :: g4 :: _ =>
          match hexVal g1, hexVal g2, hexVal g3, hexVal g4 with
          | some w1, some w2, some w3, some w4 =>
            if 0xdc00 ≤ ((w1 * 16 + w2) * 16 + w3) * 16 + w4 ∧
                ((w1 * 16 + w2) * 16 + w3) * 16 + w4 < 0xe000 then
              some (Char.ofNat (0x10000 +
                (((v1 * 16 + v2) * 16 + v3) * 16 + v4 - 0xd800) * 0x400 +
                (((w1 * 16 + w2) * 16 + w3) * 16 + w4 - 0xdc00)), 10)
            else none
          | _, _, _, _ => none
        | _ => none
      else if 0xdc00 ≤ ((v1 * 16 + v2) * 16 + v3) * 16 + v4 ∧
          ((v1 * 16 + v2) * 16 + v3) * 16 + v4 < 0xe000 then none
      else some (Char.ofNat (((v1 * 16 + v2) * 16 + v3) * 16 + v4), 4)
    | _, _, _, _ => none
  | _ => none

/--
One escape after the backslash: the decoded character and the number of
input characters consumed.
-/
def parseEsc : List Char → Option (Char × Nat)
  | [] => none
  | e :: r2 =>
    if e = '\x22' then some ('\x22', 1)
    else if e = '\\' then some ('\\', 1)
    else if e = '/' then some ('/', 1)
    else if e = 'n' then some ('\n', 1)
    else if e = 't' then some ('\t', 1)
    else if e = 'r' then some ('\r', 1)
    else if e = 'b' then some ('\x08', 1)
    else if e = 'f' then some ('\x0c', 1)
    else if e = 'u' then (parseU r2).map (fun p => (p.1, 1 + p.2))
    else none

/--
The body of a JSON string after the opening quote: characters up to the
closing quote, decoding escapes through `parseEsc`.  Returns the decoded
body and the input after the closing quote.
-/
def parseStrBody : List Char → Option (List Char × List Char)
  | [] => none
  | c :: r =>
    if c = '\x22' then some ([], r)
    else if c = '\\' then
      match parseEsc r with
      | some (d, k) => (parseStrBody (r.drop k)).map (fun p => (d :: p.1, p.2))
      | none => none
    else (parseStrBody r).map (fun p => (c :: p.1, p.2))
termination_by l => l.length
decreasing_by
  all_goals simp_wf
  all_goals omega

/--
A JSON number as `dumps` writes it: optional minus, a digit run, and an
optional fraction — an int without a dot, a decimal float with one.
-/
def parseNumber (l : List Char) : Option (JVal × List Char) :=
  let neg := headEq l '-'
  let l1 := if neg then l.drop 1 else l
  let ds := l1.takeWhile Char.isDigit
  if ds = [] then none
  else
    let l2 := l1.drop ds.length
    if headEq l2 '.' then
      let fs := (l2.drop 1).takeWhile Char.isDigit
      if fs = [] then none
      else
        some (JVal.jfloat
          (if neg then -(Int.ofNat (digitsToNat ds * 10 ^ fs.length + digitsToNat fs))
           else Int.ofNat (digitsToNat ds * 10 ^ fs.length + digitsToNat fs))
          fs.length,
          (l2.drop 1).drop fs.length)
    else
      some (JVal.jint
        (if neg then -(Int.ofNat (digitsToNat ds)) else Int.ofNat (digitsToNat ds)), l2)

/-- Whether a list starts with a decimal digit. -/
def headIsDigit (l : List Char) : Bool :=
  match l with
  | c :: _ => c.isDigit
  | [] => false

mutual

/-- One JSON value: skip whitespace, then dispatch on the first character
(string, array, object, or number).  `fuel` bounds nesting and item
counts; every recursive call decrements it. -/
def parseVal : Nat → List Char → Option (JVal × List Char)
  | 0, _ => none
  | fuel + 1, l =>
    if headEq (skipWs l) '\x22' then
      (parseStrBody ((skipWs l).drop 1)).map (fun p => (JVal.jstr p.1, p.2))
    else if headEq (skipWs l) '[' then
      (if headEq (skipWs ((skipWs l).drop 1)) ']' then
         some (JVal.jarr [], (skipWs ((skipWs l).drop 1)).drop 1)
       else (parseItems fuel ((skipWs l).drop 1)).map (fun p => (JVal.jarr p.1, p.2)))
    else if headEq (skipWs l) '\x7b' then
      (if headEq (skipWs ((skipWs l).drop 1)) '\x7d' then
         some (JVal.jobj [], (skipWs ((skipWs l).drop 1)).drop 1)
       else (parseMembers fuel ((skipWs l).drop 1)).map (fun p => (JVal.jobj p.1, p.2)))
    else if headEq (skipWs l) '-' || headIsDigit (skipWs l) then parseNumber (skipWs l)
    else none

/-- The items of a non-empty array, up to and past the closing bracket. -/
def parseItems : Nat → List Char → Option (List JVal × List Char)
  | 0, _ => none
  | fuel + 1, l =>
    (parseVal fuel l).bind (fun vr =>
      if headEq (skipWs vr.2) ',' then
        (parseItems fuel ((skipWs vr.2).drop 1)).map (fun p => (vr.1 :: p.1, p.2))
      else if headEq (skipWs vr.2) ']' then some ([vr.1], (skipWs vr.2).drop 1)
      else none)

/-- The members of a non-empty object, up to and past the closing brace. -/
def parseMembers : Nat → List Char → Option (List (List Char × JVal) × List Char)
  | 0, _ => none
  | fuel + 1, l =>
    if headEq (skipWs l) '\x22' then
      (parseStrBody ((skipWs l).drop 1)).bind (fun kr =>
        if headEq (skipWs kr.2) ':' then
          (parseVal fuel ((skipWs kr.2).drop 1)).bind (fun vr =>
            if headEq (skipWs vr.2) ',' then
              (parseMembers fuel ((skipWs vr.2).drop 1)).map
                (fun p => ((kr.1, vr.1) :: p.1, p.2))
            else if headEq (skipWs vr.2) '\x7d' then
              some ([(kr.1, vr.1)], (skipWs vr.2).drop 1)
            else none)
        else none)
    else none

end

/-- `json.dumps(value, indent=2)`. -/
def jsonDumps (v : JVal) : List Char :=
  dumpsVal 0 v

/-- `json.loads`: one value, no trailing garbage.  The fuel `length + 1`
covers every value whose dump the input is (`needJ_le_dumps` below). -/
def jsonLoads (s : List Char) : Option JVal :=
  match parseVal (s.length + 1) s with
  | some (v, rest) => if skipWs rest = [] then some v else none
  | none => none

/-- The next character cannot extend a number token (absent, or neither
digit nor dot). -/
def numStop (l : List Char) : Bool :=
  match l with
  | [] => true
  | c :: _ => !(c.isDigit || c = '.')

/-- The next character cannot extend a digit run. -/
def digitStop (l : List Char) : Bool :=
  match l with
  | [] => true
  | c :: _ => !c.isDigit

/-- All characters are JSON whitespace. -/
def allWs (l : List Char) : Bool :=
  l.all jsonWsChar

/-! The development's theorems: the normal form of the generator, field
access lemmas, helper lemmas, and the claim theorems. -/

-- ===== normal form =====

set_option maxHeartbeats 4000000 in
theorem generate_norm (reada : Option (Int × Nat)) (procDate : List Char)
    (elapsed : Int × Nat) (text0 filename : List Char) :
    generate_basic_metadata_from_text reada procDate elapsed text0 filename =
    gmExplicit reada procDate elapsed text0 filename := rfl

theorem gmText_eq (text0 : List Char) : gmText text0 = preprocess_text text0 := by
  by_cases h : text0 = []
  · subst h; rfl
  · simp [gmText, h]

theorem gm_confidence (reada : Option (Int × Nat)) (procDate : List Char)
    (elapsed : Int × Nat) (text0 filename : List Char) :
    objGet2 (gmExplicit reada procDate elapsed text0 filename)
      "technical_metadata".toList "confidence_score".toList =
    some (if gmText text0 = [] then JVal.jfloat 1 1 else JVal.jfloat 8 1) := rfl

theorem gm_summary (reada : Option (Int × Nat)) (procDate : List Char)
    (elapsed : Int × Nat) (text0 filename : List Char) :
    objGet2 (gmExplicit reada procDate elapsed text0 filename)
      "semantic_data".toList "summary".toList =
    some (if gmText text0 = [] then JVal.jstr "No text content extracted".toList
          else JVal.jstr (summaryOf (gmText text0))) := rfl

theorem gm_key_topics (reada : Option (Int × Nat)) (procDate : List Char)
    (elapsed : Int × Nat) (text0 filename : List Char) :
    objGet2 (gmExplicit reada procDate elapsed text0 filename)
      "semantic_data".toList "key_topics".toList =
    some (if gmText text0 = [] then JVal.jarr []
          else JVal.jarr ((key_topics_of (gmWords text0)).map JVal.jstr)) := rfl

theorem gm_entities (reada : Option (Int × Nat)) (procDate : List Char)
    (elapsed : Int × Nat) (text0 filename : List Char) (k : List Char) :
    objGet3 (gmExplicit reada procDate elapsed text0 filename)
      "semantic_data".toList "entities".toList k =
    objGet (if gmText text0 = [] then entities_empty else entities_of (gmText text0)) k := by
  have h : objGet2 (gmExplicit reada procDate elapsed text0 filename)
      "semantic_data".toList "entities".toList =
      some (if gmText text0 = [] then entities_empty else entities_of (gmText text0)) := rfl
  unfold objGet3
  rw [h]

-- ===== helper lemmas =====

theorem uniqFirstAux_mem {x : List Char} :
    ∀ (l seen : List (List Char)), x ∈ uniqFirstAux seen l → x ∈ l ∧ x ∉ seen := by
  intro l
  induction l with
  | nil => intro seen h; simp [uniqFirstAux] at h
  | cons a tl ih =>
    intro seen h
    by_cases ha : a ∈ seen
    · simp [uniqFirstAux, ha] at h
      have := ih seen h
      exact ⟨List.mem_cons_of_mem _ this.1, this.2⟩
    · simp [uniqFirstAux, ha] at h
      rcases h with h | h
      · subst h; exact ⟨List.mem_cons_self _ _, ha⟩
      · have := ih (a :: seen) h
        refine ⟨List.mem_cons_of_mem _ this.1, fun hx => this.2 (List.mem_cons_of_mem _ hx)⟩

theorem uniqFirstAux_nodup : ∀ (l seen : List (List Char)), (uniqFirstAux seen l).Nodup := by
  intro l
  induction l with
  | nil => intro seen; simp [uniqFirstAux]
  | cons a tl ih =>
    intro seen
    by_cases ha : a ∈ seen
    · simp only [uniqFirstAux, if_pos ha]
      exact ih seen
    · simp only [uniqFirstAux, ha, if_false]
      refine List.nodup_cons.mpr ⟨fun hmem => ?_, ih (a :: seen)⟩
      exact (uniqFirstAux_mem tl (a :: seen) hmem).2 (List.mem_cons_self _ _)

theorem uniqFirst_nodup (l : List (List Char)) : (uniqFirst l).Nodup :=
  uniqFirstAux_nodup l []

theorem uniqFirst_subset {x : List Char} {l : List (List Char)} (h : x ∈ uniqFirst l) : x ∈ l :=
  (uniqFirstAux_mem l [] h).1

theorem mem_insertDesc {x : List Char} (cnt : List Char → Nat) (a : List Char) :
    ∀ l, x ∈ insertDesc cnt a l → x = a ∨ x ∈ l := by
  intro l
  induction l with
  | nil => intro h; simp [insertDesc] at h; exact Or.inl h
  | cons b tl ih =>
    intro h
    by_cases hc : cnt b ≤ cnt a
    · simpa [insertDesc, hc] using h
    · simp only [insertDesc, hc, if_false] at h
      rcases List.mem_cons.mp h with h | h
      · exact Or.inr (h ▸ List.mem_cons_self _ _)
      · rcases ih h with h | h
        · exact Or.inl h
        · exact Or.inr (List.mem_cons_of_mem _ h)

theorem mem_sortDesc {x : List Char} (cnt : List Char → Nat) :
    ∀ l, x ∈ sortDesc cnt l → x ∈ l := by
  intro l
  induction l with
  | nil => intro h; simp [sortDesc] at h
  | cons a tl ih =>
    intro h
    rcases mem_insertDesc cnt a _ h with h | h
    · exact h ▸ List.mem_cons_self _ _
    · exact List.mem_cons_of_mem _ (ih h)

-- ===== C2 =====

/--
C2: whenever the lowercased text contains the substring `abstract`, the
classifier returns `Academic Paper`, whatever else the text holds.
-/
theorem classify_abstract_academic (text : List Char)
    (h : containsSub "abstract".toList (pyLower text) = true) :
    classify_document_type text = "Academic Paper".toList := by
  have hne : text ≠ [] := by
    intro he
    subst he
    exact absurd h (by decide)
  unfold classify_document_type
  rw [if_neg hne]
  have hany : ((["abstract", "introduction", "methodology", "conclusion", "references"].map
      String.toList).any (fun w => containsSub w (pyLower text))) = true := by
    simp only [List.map, List.any_cons, h, Bool.true_or]
  rw [if_pos hany]

/-- C2 witness: a concrete text containing `Abstract`. -/
theorem classify_abstract_academic_witness :
    classify_document_type "The Abstract: machine learning for novels".toList =
      "Academic Paper".toList :=
  classify_abstract_academic _ (by decide)

-- ===== C9 =====

/--
C9: the two extractors are total functions of the extraction outcome — no
exception propagates — returning the stripped library text on success and
a bracketed diagnostic string when the library is missing or raises.
-/
theorem extractors_total_and_bracketed :
    (∀ raw, extract_pdf_text (ExtractOutcome.ok raw) = pyStrip raw) ∧
    (extract_pdf_text ExtractOutcome.importError).head? = some '[' ∧
    (∀ msg, (extract_pdf_text (ExtractOutcome.exc msg)).head? = some '[') ∧
    (∀ raw, extract_docx_text (ExtractOutcome.ok raw) = pyStrip raw) ∧
    (extract_docx_text ExtractOutcome.importError).head? = some '[' ∧
    (∀ msg, (extract_docx_text (ExtractOutcome.exc msg)).head? = some '[') :=
  ⟨fun _ => rfl, rfl, fun _ => rfl, fun _ => rfl, rfl, fun _ => rfl⟩

-- ===== C10 =====

/--
C10: the confidence score is the float 0.8 (here the exact decimal
`JVal.jfloat 8 1`) exactly when the preprocessed text is non-empty and
0.1 (`JVal.jfloat 1 1`) when it is empty; a bracketed extraction
placeholder is non-empty text, so it still gets 0.8.
-/
theorem confidence_score_cases (reada : Option (Int × Nat)) (procDate : List Char)
    (elapsed : Int × Nat) (text0 filename : List Char) :
    objGet2 (generate_basic_metadata_from_text reada procDate elapsed text0 filename)
        "technical_metadata".toList "confidence_score".toList =
      some (if preprocess_text text0 = [] then JVal.jfloat 1 1 else JVal.jfloat 8 1) ∧
    objGet2 (generate_basic_metadata_from_text reada procDate elapsed
        (extract_pdf_text ExtractOutcome.importError) filename)
        "technical_metadata".toList "confidence_score".toList = some (JVal.jfloat 8 1) := by
  constructor
  · rw [generate_norm, gm_confidence, gmText_eq]
  · rw [generate_norm, gm_confidence]
    have h : gmText (extract_pdf_text ExtractOutcome.importError) ≠ [] := by decide
    rw [if_neg h]

-- ===== C5 =====

/--
C5: for empty text the record has word count 0, character count 0 and the
fixed no-content summary.
-/
theorem empty_text_record (reada : Option (Int × Nat)) (procDate : List Char)
    (elapsed : Int × Nat) (filename : List Char) :
    objGet2 (generate_basic_metadata_from_text reada procDate elapsed [] filename)
        "content_analysis".toList "word_count".toList = some (JVal.jint 0) ∧
    objGet2 (generate_basic_metadata_from_text reada procDate elapsed [] filename)
        "content_analysis".toList "character_count".toList = some (JVal.jint 0) ∧
    objGet2 (generate_basic_metadata_from_text reada procDate elapsed [] filename)
        "semantic_data".toList "summary".toList =
      some (JVal.jstr "No text content extracted".toList) := by
  refine ⟨?_, ?_, ?_⟩ <;> rw [generate_norm] <;> rfl

-- ===== C1 (code_bug evidence) =====

/--
C1 evidence: the PERCENT regex ends in a word boundary placed after the
non-word character `%`, so it matches only when a word character follows
the `%` directly.  On ordinary text — `15%` followed by a space, the
period-less `3.5%`, or the repository's own sample sentence — `findall`
returns nothing and the PERCENT entity list stays empty; `15 percent` is
(as the claim says) never matched.  `15%x` shows the only way the
pattern fires.
-/
theorem percent_regex_never_fires_on_plain_text :
    findPercentages "Our revenue increased by 15% compared to the previous quarter".toList
      = [] ∧
    findPercentages "Rates rose 3.5% overall".toList = [] ∧
    findPercentages "15%".toList = [] ∧
    findPercentages "Rates rose 15 percent overall".toList = [] ∧
    findPercentages "15%x".toList = ["15%".toList] ∧
    objGet3 (generate_basic_metadata_from_text none [] (0, 1)
        "Our revenue increased by 15% compared to the previous quarter".toList
        "report.txt".toList)
      "semantic_data".toList "entities".toList "PERCENT".toList = some (JVal.jarr []) := by
  refine ⟨by decide, by decide, by decide, by decide, by decide, ?_⟩
  rw [generate_norm, gm_entities]
  have h : gmText "Our revenue increased by 15% compared to the previous quarter".toList ≠ [] :=
    by decide
  rw [if_neg h]
  have hp : uniqFirst (findPercentages
      (gmText "Our revenue increased by 15% compared to the previous quarter".toList)) = [] := by
    decide
  unfold entities_of
  rw [hp]
  rfl

-- ===== C6 =====

/--
C6 counterexample: the PERCENT list is deduplicated but never truncated
(line 198 has no slice), so a text with six distinct percentage matches
produces a PERCENT entity list longer than every truncation used by the
code (5 for PERSON, 3 for DATE).
-/
theorem percent_list_not_truncated :
    ¬ ((match objGet3 (generate_basic_metadata_from_text none [] (0, 1)
          "1%a 2%b 3%c 4%d 5%e 6%f".toList "f.txt".toList)
          "semantic_data".toList "entities".toList "PERCENT".toList with
        | some (JVal.jarr xs) => xs.length
        | _ => 0) ≤ 5) := by
  intro hle
  rw [generate_norm, gm_entities] at hle
  have h : gmText "1%a 2%b 3%c 4%d 5%e 6%f".toList ≠ [] := by decide
  rw [if_neg h] at hle
  have hp : uniqFirst (findPercentages (gmText "1%a 2%b 3%c 4%d 5%e 6%f".toList)) =
      ["1%".toList, "2%".toList, "3%".toList, "4%".toList, "5%".toList, "6%".toList] := by
    decide
  unfold entities_of at hle
  rw [hp] at hle
  simp [objGet, objGet.lookupKey] at hle

/--
C6 amended: each of the three scanned entity lists is deduplicated; the
PERSON list is truncated to five and the DATE list to three, while the
PERCENT list is deduplicated but not truncated.
-/
theorem entity_lists_dedup_truncation (reada : Option (Int × Nat)) (procDate : List Char)
    (elapsed : Int × Nat) (text0 filename : List Char) :
    ∃ ps ds pc : List (List Char),
      objGet3 (generate_basic_metadata_from_text reada procDate elapsed text0 filename)
        "semantic_data".toList "entities".toList "PERSON".toList
        = some (JVal.jarr (ps.map JVal.jstr)) ∧
      ps.Nodup ∧ ps.length ≤ 5 ∧
      objGet3 (generate_basic_metadata_from_text reada procDate elapsed text0 filename)
        "semantic_data".toList "entities".toList "DATE".toList
        = some (JVal.jarr (ds.map JVal.jstr)) ∧
      ds.Nodup ∧ ds.length ≤ 3 ∧
      objGet3 (generate_basic_metadata_from_text reada procDate elapsed text0 filename)
        "semantic_data".toList "entities".toList "PERCENT".toList
        = some (JVal.jarr (pc.map JVal.jstr)) ∧
      pc.Nodup := by
  rw [generate_norm]
  by_cases h : gmText text0 = []
  · refine ⟨[], [], [], ?_⟩
    rw [gm_entities, gm_entities, gm_entities, if_pos h]
    exact ⟨rfl, List.nodup_nil, by simp, rfl, List.nodup_nil, by simp, rfl, List.nodup_nil⟩
  · refine ⟨(uniqFirst (findCapitalized (gmText text0))).take 5,
      (uniqFirst (findDates (gmText text0))).take 3,
      uniqFirst (findPercentages (gmText text0)), ?_⟩
    rw [gm_entities, gm_entities, gm_entities, if_neg h]
    refine ⟨rfl, ?_, List.length_take_le 5 _, rfl, ?_, List.length_take_le 3 _, rfl, ?_⟩
    · exact (uniqFirst_nodup _).sublist (List.take_sublist _ _)
    · exact (uniqFirst_nodup _).sublist (List.take_sublist _ _)
    · exact uniqFirst_nodup _

-- ===== C3 =====

/--
C3 counterexample: the stoplist test runs on the lowercased word before
punctuation is stripped, so `the.` passes the filter and is then stripped
to the stop word `the`, which becomes the sole key topic.
-/
theorem key_topics_contain_stop_word :
    objGet2 (generate_basic_metadata_from_text none [] (0, 1)
        "the. the. the.".toList "f.txt".toList)
      "semantic_data".toList "key_topics".toList
      = some (JVal.jarr [JVal.jstr "the".toList]) ∧
    "the".toList ∈ stop_words := by
  constructor
  · rw [generate_norm, gm_key_topics]
    have h : gmText "the. the. the.".toList ≠ [] := by decide
    rw [if_neg h]
    have ht : key_topics_of (gmWords "the. the. the.".toList) = ["the".toList] := by decide
    rw [ht]
    rfl
  · decide

/--
C3 amended: the key-topic list has at most five entries, and every entry
is the lowercased, punctuation-stripped form of some word of the
preprocessed text that is longer than three characters and whose
lowercase form is not in the stoplist — the stripped entry itself may
still be a stop word, because the stoplist test precedes the stripping.
-/
theorem key_topics_bounded_and_from_filtered_words (reada : Option (Int × Nat))
    (procDate : List Char) (elapsed : Int × Nat) (text0 filename : List Char) :
    ∃ ts : List (List Char),
      objGet2 (generate_basic_metadata_from_text reada procDate elapsed text0 filename)
        "semantic_data".toList "key_topics".toList = some (JVal.jarr (ts.map JVal.jstr)) ∧
      ts.length ≤ 5 ∧
      ∀ w ∈ ts, ∃ orig, orig ∈ pySplitWs (preprocess_text text0) ∧ 3 < orig.length ∧
        pyLower orig ∉ stop_words ∧ w = pyStripPunct (pyLower orig) := by
  rw [generate_norm]
  by_cases h : gmText text0 = []
  · refine ⟨[], ?_, by simp, by simp⟩
    rw [gm_key_topics, if_pos h]
    rfl
  · refine ⟨key_topics_of (gmWords text0), ?_, ?_, ?_⟩
    · rw [gm_key_topics, if_neg h]
    · exact List.length_take_le 5 _
    · intro w hw
      have hw1 : w ∈ words_clean (gmWords text0) :=
        uniqFirst_subset (mem_sortDesc _ _ (List.mem_of_mem_take hw))
      unfold words_clean at hw1
      rcases List.mem_map.mp hw1 with ⟨orig, horig, hmap⟩
      rcases List.mem_filter.mp horig with ⟨hmem, hcond⟩
      rw [decide_eq_true_eq] at hcond
      refine ⟨orig, ?_, hcond.1, hcond.2, hmap.symm⟩
      have : gmWords text0 = pySplitWs (preprocess_text text0) := by
        rw [gmWords, if_neg h, gmText_eq]
      exact this ▸ hmem

-- ===== C7 =====

/--
C7: for non-empty preprocessed text with at least one non-empty
period-separated sentence, the summary is the first two such sentences
joined with a period-space separator and closed with a period (plus an
ellipsis when the result tops 200 characters); for non-empty text with
no such sentence it is the first 200 characters of the text.
-/
theorem summary_two_sentences_or_prefix (reada : Option (Int × Nat)) (procDate : List Char)
    (elapsed : Int × Nat) (text0 filename : List Char) :
    (preprocess_text text0 ≠ [] → sentencesOf (preprocess_text text0) ≠ [] →
      objGet2 (generate_basic_metadata_from_text reada procDate elapsed text0 filename)
        "semantic_data".toList "summary".toList =
      some (JVal.jstr
        (if 200 < (List.intercalate ". ".toList
              ((sentencesOf (preprocess_text text0)).take 2) ++ ['.']).length
         then List.intercalate ". ".toList
              ((sentencesOf (preprocess_text text0)).take 2) ++ ['.'] ++ "...".toList
         else List.intercalate ". ".toList
              ((sentencesOf (preprocess_text text0)).take 2) ++ ['.']))) ∧
    (preprocess_text text0 ≠ [] → sentencesOf (preprocess_text text0) = [] →
      objGet2 (generate_basic_metadata_from_text reada procDate elapsed text0 filename)
        "semantic_data".toList "summary".toList =
      some (JVal.jstr ((preprocess_text text0).take 200))) := by
  constructor
  · intro h1 h2
    rw [generate_norm, gm_summary, gmText_eq, if_neg h1]
    unfold summaryOf summary_text
    rw [if_pos h2]
  · intro h1 h2
    rw [generate_norm, gm_summary, gmText_eq, if_neg h1]
    unfold summaryOf summary_text
    rw [if_neg (by simp [h2])]
    have hlen : ¬ (200 < ((preprocess_text text0).take 200).length) := by
      have := List.length_take_le 200 (preprocess_text text0)
      omega
    simp [h2]

-- ===== C8 =====

/--
C8: whatever the text (including the empty result of a failed
extraction), the record keeps exactly the groups and fields of
`create_metadata_schema`, and the fields the generator never writes —
`creation_date`, `file_size` — keep their schema defaults.
-/
theorem record_has_all_schema_fields (reada : Option (Int × Nat)) (procDate : List Char)
    (elapsed : Int × Nat) (text0 filename : List Char) :
    objKeys (generate_basic_metadata_from_text reada procDate elapsed text0 filename) =
      objKeys create_metadata_schema ∧
    (objGet (generate_basic_metadata_from_text reada procDate elapsed text0 filename)
        "basic_info".toList).map objKeys =
      some ["filename".toList, "file_type".toList, "file_size".toList,
            "creation_date".toList, "processing_date".toList] ∧
    (objGet (generate_basic_metadata_from_text reada procDate elapsed text0 filename)
        "content_analysis".toList).map objKeys =
      some ["word_count".toList, "character_count".toList, "document_type".toList,
            "readability_score".toList] ∧
    (objGet (generate_basic_metadata_from_text reada procDate elapsed text0 filename)
        "semantic_data".toList).map objKeys =
      some ["summary".toList, "key_topics".toList, "entities".toList] ∧
    (objGet (generate_basic_metadata_from_text reada procDate elapsed text0 filename)
        "technical_metadata".toList).map objKeys =
      some ["extraction_method".toList, "processing_time".toList, "confidence_score".toList] ∧
    objGet2 (generate_basic_metadata_from_text reada procDate elapsed text0 filename)
        "basic_info".toList "creation_date".toList = some (JVal.jstr []) ∧
    objGet2 (generate_basic_metadata_from_text reada procDate elapsed text0 filename)
        "basic_info".toList "file_size".toList = some (JVal.jint 0) := by
  refine ⟨?_, ?_, ?_, ?_, ?_, ?_, ?_⟩ <;> rw [generate_norm] <;> rfl

-- ===== digit lemmas =====

theorem digitChar_spec : ∀ d, d < 10 →
    Char.isDigit (digitChar d) = true ∧ (digitChar d).toNat - 48 = d ∧
    jsonWsChar (digitChar d) = false ∧ (digitChar d) ≠ '-' ∧ (digitChar d) ≠ '.' ∧
    (digitChar d) ≠ ']' ∧ (digitChar d) ≠ '\x7d' ∧ (digitChar d) ≠ '\x22' := by
  decide

theorem digitsToNat_append_singleton (l : List Char) (c : Char) :
    digitsToNat (l ++ [c]) = digitsToNat l * 10 + (c.toNat - 48) := by
  simp [digitsToNat, List.foldl_append]

theorem natDigitsAux_spec : ∀ fuel n, n < fuel →
    (∀ c ∈ natDigitsAux fuel n, Char.isDigit c = true) ∧
    natDigitsAux fuel n ≠ [] ∧
    digitsToNat (natDigitsAux fuel n) = n := by
  intro fuel
  induction fuel with
  | zero => intro n h; omega
  | succ fuel ih =>
    intro n h
    by_cases h10 : n < 10
    · refine ⟨?_, ?_, ?_⟩ <;> simp [natDigitsAux, h10]
      · exact (digitChar_spec n h10).1
      · simpa [digitsToNat] using (digitChar_spec n h10).2.1
    · have hd : n / 10 < fuel := by
        have := Nat.div_lt_self (by omega : 0 < n) (by omega : 1 < 10)
        omega
      obtain ⟨ha, hb, hc⟩ := ih (n / 10) hd
      refine ⟨?_, ?_, ?_⟩ <;> simp [natDigitsAux, h10]
      · intro c hcmem
        rcases hcmem with hcmem | hcmem
        · exact ha c hcmem
        · rw [hcmem]; exact (digitChar_spec (n % 10) (Nat.mod_lt _ (by omega))).1
      · rw [digitsToNat_append_singleton, hc,
          (digitChar_spec (n % 10) (Nat.mod_lt _ (by omega))).2.1]
        omega

theorem natToDigits_spec (n : Nat) :
    (∀ c ∈ natToDigits n, Char.isDigit c = true) ∧
    natToDigits n ≠ [] ∧
    digitsToNat (natToDigits n) = n :=
  natDigitsAux_spec (n + 1) n (by omega)

theorem fracDigits_spec : ∀ e b,
    (∀ c ∈ fracDigits e b, Char.isDigit c = true) ∧
    (fracDigits e b).length = e ∧
    digitsToNat (fracDigits e b) = b % 10 ^ e := by
  intro e
  induction e with
  | zero => intro b; simp [fracDigits, digitsToNat, Nat.mod_one]
  | succ e ih =>
    intro b
    obtain ⟨ha, hb, hc⟩ := ih (b / 10)
    have hm : b % 10 < 10 := Nat.mod_lt _ (by omega)
    refine ⟨?_, ?_, ?_⟩
    · intro c hcmem
      simp [fracDigits] at hcmem
      rcases hcmem with hcmem | hcmem
      · exact ha c hcmem
      · rw [hcmem]; exact (digitChar_spec (b % 10) hm).1
    · simp [fracDigits, hb]
    · show digitsToNat (fracDigits e (b / 10) ++ [digitChar (b % 10)]) = _
      rw [digitsToNat_append_singleton, hc, (digitChar_spec (b % 10) hm).2.1]
      have h1 : b % 10 ^ (e + 1) = b / 10 % 10 ^ e * 10 + b % 10 := by
        obtain ⟨t, ht⟩ : ∃ t, b / 10 = 10 ^ e * t + b / 10 % 10 ^ e :=
          ⟨b / 10 / 10 ^ e, by rw [Nat.div_add_mod]⟩
        have hb10 : b = 10 * (b / 10) + b % 10 := (Nat.div_add_mod b 10).symm
        have hlt : b / 10 % 10 ^ e < 10 ^ e := Nat.mod_lt _ (Nat.pos_pow_of_pos e (by omega))
        calc b % 10 ^ (e + 1)
            = (10 * (10 ^ e * t + b / 10 % 10 ^ e) + b % 10) % 10 ^ (e + 1) := by
              rw [← ht, ← hb10]
          _ = (b / 10 % 10 ^ e * 10 + b % 10 + 10 ^ (e + 1) * t) % 10 ^ (e + 1) := by
              ring_nf
          _ = (b / 10 % 10 ^ e * 10 + b % 10) % 10 ^ (e + 1) := by
              rw [Nat.add_mul_mod_self_left]
          _ = b / 10 % 10 ^ e * 10 + b % 10 := by
              apply Nat.mod_eq_of_lt
              have : 10 ^ (e + 1) = 10 ^ e * 10 := by ring
              omega
      omega

-- digit run extraction

theorem takeWhile_digits (ds rest : List Char) (h1 : ∀ c ∈ ds, Char.isDigit c = true)
    (h2 : digitStop rest = true) :
    (ds ++ rest).takeWhile Char.isDigit = ds ∧ (ds ++ rest).drop ds.length = rest := by
  constructor
  · induction ds with
    | nil =>
      cases rest with
      | nil => rfl
      | cons c r =>
        simp [digitStop] at h2
        simp [List.takeWhile_cons, h2]
    | cons d ds ih =>
      have hd := h1 d (List.mem_cons_self _ _)
      simp [List.cons_append, List.takeWhile_cons, hd,
        ih (fun c hc => h1 c (List.mem_cons_of_mem _ hc))]
  · exact List.drop_left ds rest

-- ===== number round trip =====

theorem headEq_cons (c d : Char) (l : List Char) : headEq (c :: l) d = (c == d) := rfl

theorem natToDigits_head_not_dash (n : Nat) : headEq (natToDigits n ++ rest) '-' = false := by
  obtain ⟨ha, hb, _⟩ := natToDigits_spec n
  cases h : natToDigits n with
  | nil => exact absurd h hb
  | cons c t =>
    have hc : Char.isDigit c = true := ha c (h ▸ List.mem_cons_self _ _)
    simp only [List.cons_append, headEq_cons]
    simp only [Char.isDigit] at hc
    rw [beq_eq_false_iff_ne]
    intro he
    subst he
    simp at hc

theorem parseNumber_intRepr (n : Int) (rest : List Char) (h : numStop rest = true) :
    parseNumber (intRepr n ++ rest) = some (JVal.jint n, rest) := by
  have hds : digitStop rest = true := by
    cases rest with
    | nil => rfl
    | cons c r => simp [numStop] at h; simp [digitStop, h]
  have hdot : headEq rest '.' = false := by
    cases rest with
    | nil => rfl
    | cons c r =>
      simp [numStop] at h
      simp [headEq_cons, beq_eq_false_iff_ne]
      intro he; subst he; simp at h
  obtain ⟨ha, hb, hc⟩ := natToDigits_spec n.natAbs
  obtain ⟨htw, hdr⟩ := takeWhile_digits (natToDigits n.natAbs) rest ha hds
  by_cases hneg : n < 0
  · have heq : intRepr n ++ rest = '-' :: (natToDigits n.natAbs ++ rest) := by
      simp [intRepr, hneg]
    rw [heq]
    unfold parseNumber
    simp only [headEq_cons, beq_self_eq_true, if_true, List.drop_one, List.tail_cons,
      htw, hdr, hb, if_neg hb, hdot, hc]
    simp only [Bool.false_eq_true, if_false]
    have hn : -(Int.ofNat n.natAbs) = n := by rw [Int.ofNat_eq_natCast]; omega
    rw [hn]
  · have heq : intRepr n ++ rest = natToDigits n.natAbs ++ rest := by
      simp [intRepr, hneg]
    rw [heq]
    unfold parseNumber
    rw [natToDigits_head_not_dash]
    simp only [Bool.false_eq_true, if_false, htw, hdr, if_neg hb, hdot, hc]
    have hn : (Int.ofNat n.natAbs) = n := by rw [Int.ofNat_eq_natCast]; omega
    rw [hn]

theorem parseNumber_floatRepr (m : Int) (e : Nat) (rest : List Char)
    (he : 1 ≤ e) (h : numStop rest = true) :
    parseNumber (floatRepr m e ++ rest) = some (JVal.jfloat m e, rest) := by
  have hds : digitStop rest = true := by
    cases rest with
    | nil => rfl
    | cons c r => simp [numStop] at h; simp [digitStop, h]
  obtain ⟨ha, hb, hc⟩ := natToDigits_spec (m.natAbs / 10 ^ e)
  obtain ⟨fa, fb, fc⟩ := fracDigits_spec e m.natAbs
  have hfne : fracDigits e m.natAbs ≠ [] := by
    intro hf
    rw [hf] at fb
    simp at fb
    omega
  -- the int-part digit run stops at the dot
  obtain ⟨htw, hdr⟩ := takeWhile_digits (natToDigits (m.natAbs / 10 ^ e))
      ('.' :: (fracDigits e m.natAbs ++ rest)) ha (by simp [digitStop])
  -- the fraction digit run stops at rest
  obtain ⟨ftw, fdr⟩ := takeWhile_digits (fracDigits e m.natAbs) rest fa hds
  have hval : digitsToNat (natToDigits (m.natAbs / 10 ^ e)) * 10 ^ e +
      digitsToNat (fracDigits e m.natAbs) = m.natAbs := by
    rw [hc, fc]
    have h1 := Nat.div_add_mod m.natAbs (10 ^ e)
    have h2 : 10 ^ e * (m.natAbs / 10 ^ e) = m.natAbs / 10 ^ e * 10 ^ e := by ring
    omega
  have fdr2 := fdr
  rw [fb] at fdr2
  have hshape : floatRepr m e ++ rest =
      (if m < 0 then ['-'] else []) ++ (natToDigits (m.natAbs / 10 ^ e) ++
        '.' :: (fracDigits e m.natAbs ++ rest)) := by
    simp [floatRepr]
  by_cases hneg : m < 0
  · rw [hshape, if_pos hneg]
    show parseNumber ('-' :: (natToDigits (m.natAbs / 10 ^ e) ++
      '.' :: (fracDigits e m.natAbs ++ rest))) = _
    unfold parseNumber
    simp only [headEq_cons, beq_self_eq_true, if_true, List.drop_one, List.tail_cons,
      htw, hdr, if_neg hb]
    simp only [headEq_cons, beq_self_eq_true, if_true, List.drop_one, List.tail_cons,
      ftw, fdr, if_neg hfne, fb, hval]
    have hn : -(Int.ofNat m.natAbs) = m := by rw [Int.ofNat_eq_natCast]; omega
    rw [hn, fdr2]
  · rw [hshape, if_neg hneg]
    simp only [List.nil_append]
    unfold parseNumber
    rw [natToDigits_head_not_dash]
    simp only [Bool.false_eq_true, if_false, htw, hdr, if_neg hb]
    simp only [headEq_cons, beq_self_eq_true, if_true, List.drop_one, List.tail_cons,
      ftw, fdr, if_neg hfne, fb, hval]
    have hn : (Int.ofNat m.natAbs) = m := by rw [Int.ofNat_eq_natCast]; omega
    rw [hn, fdr2]

-- ===== string round trip =====


theorem hexVal_hexDigitChar : ∀ d, d < 16 → hexVal (hexDigitChar d) = some d := by
  decide

theorem char_valid_ranges (c : Char) :
    c.toNat < 0xd800 ∨ (0xdfff < c.toNat ∧ c.toNat < 0x110000) := by
  have h := c.valid
  rcases h with h | h
  · left; exact h
  · right; exact h

theorem parseU_bmp (n : Nat) (T : List Char)
    (h : n < 0xd800 ∨ (0xdfff < n ∧ n < 0x10000)) :
    parseU (hex4 n ++ T) = some (Char.ofNat n, 4) := by
  have e1 := hexVal_hexDigitChar (n / 4096 % 16) (Nat.mod_lt _ (by omega))
  have e2 := hexVal_hexDigitChar (n / 256 % 16) (Nat.mod_lt _ (by omega))
  have e3 := hexVal_hexDigitChar (n / 16 % 16) (Nat.mod_lt _ (by omega))
  have e4 := hexVal_hexDigitChar (n % 16) (Nat.mod_lt _ (by omega))
  have harith : ((n / 4096 % 16 * 16 + n / 256 % 16) * 16 + n / 16 % 16) * 16 + n % 16 = n := by
    omega
  show parseU (hexDigitChar (n / 4096 % 16) :: hexDigitChar (n / 256 % 16) ::
    hexDigitChar (n / 16 % 16) :: hexDigitChar (n % 16) :: T) = some (Char.ofNat n, 4)
  unfold parseU
  simp only [e1, e2, e3, e4, harith]
  rw [if_neg (by omega), if_neg (by omega)]

theorem parseU_pair (hi lo : Nat) (T : List Char)
    (hh : 0xd800 ≤ hi ∧ hi < 0xdc00) (hl : 0xdc00 ≤ lo ∧ lo < 0xe000) :
    parseU (hex4 hi ++ '\\' :: 'u' :: hex4 lo ++ T) =
      some (Char.ofNat (0x10000 + (hi - 0xd800) * 0x400 + (lo - 0xdc00)), 10) := by
  have e1 := hexVal_hexDigitChar (hi / 4096 % 16) (Nat.mod_lt _ (by omega))
  have e2 := hexVal_hexDigitChar (hi / 256 % 16) (Nat.mod_lt _ (by omega))
  have e3 := hexVal_hexDigitChar (hi / 16 % 16) (Nat.mod_lt _ (by omega))
  have e4 := hexVal_hexDigitChar (hi % 16) (Nat.mod_lt _ (by omega))
  have f1 := hexVal_hexDigitChar (lo / 4096 % 16) (Nat.mod_lt _ (by omega))
  have f2 := hexVal_hexDigitChar (lo / 256 % 16) (Nat.mod_lt _ (by omega))
  have f3 := hexVal_hexDigitChar (lo / 16 % 16) (Nat.mod_lt _ (by omega))
  have f4 := hexVal_hexDigitChar (lo % 16) (Nat.mod_lt _ (by omega))
  have ha : ((hi / 4096 % 16 * 16 + hi / 256 % 16) * 16 + hi / 16 % 16) * 16 + hi % 16 = hi := by
    omega
  have hb : ((lo / 4096 % 16 * 16 + lo / 256 % 16) * 16 + lo / 16 % 16) * 16 + lo % 16 = lo := by
    omega
  show parseU (hexDigitChar (hi / 4096 % 16) :: hexDigitChar (hi / 256 % 16) ::
    hexDigitChar (hi / 16 % 16) :: hexDigitChar (hi % 16) :: '\\' :: 'u' ::
    hexDigitChar (lo / 4096 % 16) :: hexDigitChar (lo / 256 % 16) ::
    hexDigitChar (lo / 16 % 16) :: hexDigitChar (lo % 16) :: T) = _
  unfold parseU
  simp only [e1, e2, e3, e4, ha]
  rw [if_pos (by omega : 0xd800 ≤ hi ∧ hi < 0xdc00)]
  simp only [f1, f2, f3, f4, hb]
  rw [if_pos (by omega : 0xdc00 ≤ lo ∧ lo < 0xe000)]

theorem psb_quote (r : List Char) : parseStrBody ('\x22' :: r) = some ([], r) := by
  unfold parseStrBody
  rw [if_pos rfl]

theorem psb_esc (e : Char) (d : Char) (k : Nat) (r : List Char)
    (h : parseEsc (e :: r) = some (d, k)) :
    parseStrBody ('\\' :: e :: r) =
      (parseStrBody ((e :: r).drop k)).map (fun p => (d :: p.1, p.2)) := by
  conv_lhs => unfold parseStrBody
  rw [if_neg (by decide : ¬ ('\\' : Char) = '\x22'), if_pos rfl, h]

theorem psb_other (c : Char) (r : List Char) (h1 : ¬ c = '\x22') (h2 : ¬ c = '\\') :
    parseStrBody (c :: r) = (parseStrBody r).map (fun p => (c :: p.1, p.2)) := by
  conv_lhs => unfold parseStrBody
  rw [if_neg h1, if_neg h2]

theorem escapeStr_cons (c : Char) (s : List Char) :
    escapeStr (c :: s) = escChar c ++ escapeStr s := by
  simp [escapeStr]

theorem parseEsc_u (r : List Char) :
    parseEsc ('u' :: r) = (parseU r).map (fun p => (p.1, 1 + p.2)) := rfl

theorem psb_esc1 (x d : Char) (T : List Char)
    (h : parseEsc (x :: T) = some (d, 1)) :
    parseStrBody ('\\' :: x :: T) = (parseStrBody T).map (fun p => (d :: p.1, p.2)) := by
  rw [psb_esc _ _ _ _ h, List.drop_one, List.tail_cons]

theorem parseStrBody_escape : ∀ (s : List Char) (rest : List Char),
    parseStrBody (escapeStr s ++ '\x22' :: rest) = some (s, rest) := by
  intro s
  induction s with
  | nil =>
    intro rest
    show parseStrBody ('\x22' :: rest) = some ([], rest)
    exact psb_quote rest
  | cons c s ih =>
    intro rest
    rw [escapeStr_cons]
    by_cases h1 : c = '\x22'
    · subst h1
      show parseStrBody ('\\' :: '\x22' :: (escapeStr s ++ '\x22' :: rest)) = _
      rw [psb_esc1 _ _ _ (rfl : parseEsc ('\x22' :: (escapeStr s ++ '\x22' :: rest)) =
        some ('\x22', 1)), ih]
      rfl
    ·
      by_cases h2 : c = '\\'
      · subst h2
        show parseStrBody ('\\' :: '\\' :: (escapeStr s ++ '\x22' :: rest)) = _
        rw [psb_esc1 _ _ _ (rfl : parseEsc ('\\' :: (escapeStr s ++ '\x22' :: rest)) =
          some ('\\', 1)), ih]
        rfl
      ·
        by_cases h3 : c = '\n'
        · subst h3
          show parseStrBody ('\\' :: 'n' :: (escapeStr s ++ '\x22' :: rest)) = _
          rw [psb_esc1 _ _ _ (rfl : parseEsc ('n' :: (escapeStr s ++ '\x22' :: rest)) =
            some ('\n', 1)), ih]
          rfl
        ·
          by_cases h4 : c = '\t'
          · subst h4
            show parseStrBody ('\\' :: 't' :: (escapeStr s ++ '\x22' :: rest)) = _
            rw [psb_esc1 _ _ _ (rfl : parseEsc ('t' :: (escapeStr s ++ '\x22' :: rest)) =
              some ('\t', 1)), ih]
            rfl
          ·
            by_cases h5 : c = '\r'
            · subst h5
              show parseStrBody ('\\' :: 'r' :: (escapeStr s ++ '\x22' :: rest)) = _
              rw [psb_esc1 _ _ _ (rfl : parseEsc ('r' :: (escapeStr s ++ '\x22' :: rest)) =
                some ('\r', 1)), ih]
              rfl
            ·
              by_cases h6 : c = '\x08'
              · subst h6
                show parseStrBody ('\\' :: 'b' :: (escapeStr s ++ '\x22' :: rest)) = _
                rw [psb_esc1 _ _ _ (rfl : parseEsc ('b' :: (escapeStr s ++ '\x22' :: rest)) =
                  some ('\x08', 1)), ih]
                rfl
              ·
                by_cases h7 : c = '\x0c'
                · subst h7
                  show parseStrBody ('\\' :: 'f' :: (escapeStr s ++ '\x22' :: rest)) = _
                  rw [psb_esc1 _ _ _ (rfl : parseEsc ('f' :: (escapeStr s ++ '\x22' :: rest)) =
                    some ('\x0c', 1)), ih]
                  rfl
                ·
                  by_cases h8 : 0x20 ≤ c.toNat ∧ c.toNat ≤ 0x7e
                  · have he : escChar c = [c] := by
                      unfold escChar
                      rw [if_neg h1, if_neg h2, if_neg h3, if_neg h4, if_neg h5, if_neg h6, if_neg h7, if_pos h8]
                    rw [he]
                    show parseStrBody (c :: (escapeStr s ++ '\x22' :: rest)) = _
                    rw [psb_other c _ h1 h2, ih]
                    rfl
                  · by_cases h9 : c.toNat < 0x10000
                    · have he : escChar c = '\\' :: 'u' :: hex4 c.toNat := by
                        unfold escChar
                        rw [if_neg h1, if_neg h2, if_neg h3, if_neg h4, if_neg h5, if_neg h6, if_neg h7, if_neg h8, if_pos h9]
                      rw [he]
                      show parseStrBody ('\\' :: 'u' ::
                        (hex4 c.toNat ++ (escapeStr s ++ '\x22' :: rest))) = _
                      have hu : parseU (hex4 c.toNat ++ (escapeStr s ++ '\x22' :: rest)) =
                          some (Char.ofNat c.toNat, 4) := by
                        apply parseU_bmp
                        have := char_valid_ranges c
                        omega
                      have hesc : parseEsc ('u' :: (hex4 c.toNat ++ (escapeStr s ++ '\x22' :: rest))) =
                          some (Char.ofNat c.toNat, 5) := by
                        rw [parseEsc_u, hu]
                        rfl
                      rw [psb_esc _ _ _ _ hesc]
                      have hdrop : (('u' : Char) :: (hex4 c.toNat ++ (escapeStr s ++ '\x22' :: rest))).drop 5 =
                          escapeStr s ++ '\x22' :: rest := by
                        show (('u' : Char) :: (hexDigitChar (c.toNat / 4096 % 16) ::
                          hexDigitChar (c.toNat / 256 % 16) :: hexDigitChar (c.toNat / 16 % 16) ::
                          hexDigitChar (c.toNat % 16) :: (escapeStr s ++ '\x22' :: rest))).drop 5 = _
                        rfl
                      rw [hdrop, ih, Char.ofNat_toNat]
                      rfl
                    · have hv := char_valid_ranges c
                      have hlt : c.toNat < 0x110000 := by omega
                      have he : escChar c =
                          '\\' :: 'u' :: hex4 (0xd800 + (c.toNat - 0x10000) / 0x400) ++
                            '\\' :: 'u' :: hex4 (0xdc00 + (c.toNat - 0x10000) % 0x400) := by
                        unfold escChar
                        rw [if_neg h1, if_neg h2, if_neg h3, if_neg h4, if_neg h5, if_neg h6, if_neg h7, if_neg h8, if_neg h9]
                      rw [he]
                      show parseStrBody ('\\' :: 'u' ::
                        ((hex4 (0xd800 + (c.toNat - 0x10000) / 0x400) ++
                          '\\' :: 'u' :: hex4 (0xdc00 + (c.toNat - 0x10000) % 0x400)) ++
                          (escapeStr s ++ '\x22' :: rest))) = _
                      rw [List.append_assoc, List.cons_append, List.cons_append]
                      have hu : parseU (hex4 (0xd800 + (c.toNat - 0x10000) / 0x400) ++
                          '\\' :: 'u' :: (hex4 (0xdc00 + (c.toNat - 0x10000) % 0x400) ++
                          (escapeStr s ++ '\x22' :: rest))) =
                          some (Char.ofNat (0x10000 +
                            (0xd800 + (c.toNat - 0x10000) / 0x400 - 0xd800) * 0x400 +
                            (0xdc00 + (c.toNat - 0x10000) % 0x400 - 0xdc00)), 10) := by
                        have hmod : (c.toNat - 0x10000) % 0x400 < 0x400 := Nat.mod_lt _ (by omega)
                        have hdiv : (c.toNat - 0x10000) / 0x400 < 0x400 := by omega
                        have := parseU_pair (0xd800 + (c.toNat - 0x10000) / 0x400)
                          (0xdc00 + (c.toNat - 0x10000) % 0x400)
                          (escapeStr s ++ '\x22' :: rest) (by omega) (by omega)
                        rw [List.append_assoc] at this
                        simpa using this
                      have harith : 0x10000 +
                          (0xd800 + (c.toNat - 0x10000) / 0x400 - 0xd800) * 0x400 +
                          (0xdc00 + (c.toNat - 0x10000) % 0x400 - 0xdc00) = c.toNat := by
                        have := Nat.div_add_mod (c.toNat - 0x10000) 0x400
                        omega
                      rw [harith] at hu
                      have hesc : parseEsc ('u' ::
                          (hex4 (0xd800 + (c.toNat - 0x10000) / 0x400) ++
                            '\\' :: 'u' :: (hex4 (0xdc00 + (c.toNat - 0x10000) % 0x400) ++
                            (escapeStr s ++ '\x22' :: rest)))) = some (Char.ofNat c.toNat, 11) := by
                        rw [parseEsc_u, hu]
                        rfl
                      rw [psb_esc _ _ _ _ hesc]
                      have hdrop : (('u' : Char) ::
                          (hex4 (0xd800 + (c.toNat - 0x10000) / 0x400) ++
                            '\\' :: 'u' :: (hex4 (0xdc00 + (c.toNat - 0x10000) % 0x400) ++
                            (escapeStr s ++ '\x22' :: rest)))).drop 11 =
                          escapeStr s ++ '\x22' :: rest := by
                        show (('u' : Char) :: (hexDigitChar _ :: hexDigitChar _ :: hexDigitChar _ ::
                          hexDigitChar _ :: ('\\' :: 'u' :: (hexDigitChar _ :: hexDigitChar _ ::
                          hexDigitChar _ :: hexDigitChar _ :: (escapeStr s ++ '\x22' :: rest))))).drop 11 = _
                        rfl
                      rw [hdrop, ih, Char.ofNat_toNat]
                      rfl

-- ===== unfolding equations =====

theorem parseVal_succ (fuel : Nat) (l : List Char) :
    parseVal (fuel + 1) l =
    (if headEq (skipWs l) '\x22' then
      (parseStrBody ((skipWs l).drop 1)).map (fun p => (JVal.jstr p.1, p.2))
    else if headEq (skipWs l) '[' then
      (if headEq (skipWs ((skipWs l).drop 1)) ']' then
         some (JVal.jarr [], (skipWs ((skipWs l).drop 1)).drop 1)
       else (parseItems fuel ((skipWs l).drop 1)).map (fun p => (JVal.jarr p.1, p.2)))
    else if headEq (skipWs l) '\x7b' then
      (if headEq (skipWs ((skipWs l).drop 1)) '\x7d' then
         some (JVal.jobj [], (skipWs ((skipWs l).drop 1)).drop 1)
       else (parseMembers fuel ((skipWs l).drop 1)).map (fun p => (JVal.jobj p.1, p.2)))
    else if headEq (skipWs l) '-' || headIsDigit (skipWs l) then parseNumber (skipWs l)
    else none) := by
  conv_lhs => unfold parseVal

theorem parseItems_succ (fuel : Nat) (l : List Char) :
    parseItems (fuel + 1) l =
    (parseVal fuel l).bind (fun vr =>
      if headEq (skipWs vr.2) ',' then
        (parseItems fuel ((skipWs vr.2).drop 1)).map (fun p => (vr.1 :: p.1, p.2))
      else if headEq (skipWs vr.2) ']' then some ([vr.1], (skipWs vr.2).drop 1)
      else none) := by
  conv_lhs => unfold parseItems

theorem parseMembers_succ (fuel : Nat) (l : List Char) :
    parseMembers (fuel + 1) l =
    (if headEq (skipWs l) '\x22' then
      (parseStrBody ((skipWs l).drop 1)).bind (fun kr =>
        if headEq (skipWs kr.2) ':' then
          (parseVal fuel ((skipWs kr.2).drop 1)).bind (fun vr =>
            if headEq (skipWs vr.2) ',' then
              (parseMembers fuel ((skipWs vr.2).drop 1)).map
                (fun p => ((kr.1, vr.1) :: p.1, p.2))
            else if headEq (skipWs vr.2) '\x7d' then
              some ([(kr.1, vr.1)], (skipWs vr.2).drop 1)
            else none)
        else none)
    else none) := by
  conv_lhs => unfold parseMembers

-- dumps equations

theorem dumpsVal_jint (ind : Nat) (n : Int) : dumpsVal ind (JVal.jint n) = intRepr n := by
  simp only [dumpsVal]

theorem dumpsVal_jfloat (ind : Nat) (m : Int) (e : Nat) :
    dumpsVal ind (JVal.jfloat m e) = floatRepr m e := by
  simp only [dumpsVal]

theorem dumpsVal_jstr (ind : Nat) (s : List Char) :
    dumpsVal ind (JVal.jstr s) = dumpStr s := by
  simp only [dumpsVal]

theorem dumpsVal_jarr_nil (ind : Nat) : dumpsVal ind (JVal.jarr []) = ['[', ']'] := by
  simp only [dumpsVal]

theorem dumpsVal_jarr_cons (ind : Nat) (x : JVal) (xs : List JVal) :
    dumpsVal ind (JVal.jarr (x :: xs)) =
      '[' :: nlInd (ind + 2) ++ dumpsVal (ind + 2) x ++ dumpsItems (ind + 2) xs ++
        nlInd ind ++ [']'] := by
  simp only [dumpsVal]

theorem dumpsVal_jobj_nil (ind : Nat) : dumpsVal ind (JVal.jobj []) = ['\x7b', '\x7d'] := by
  simp only [dumpsVal]

theorem dumpsVal_jobj_cons (ind : Nat) (k : List Char) (v : JVal)
    (kvs : List (List Char × JVal)) :
    dumpsVal ind (JVal.jobj ((k, v) :: kvs)) =
      '\x7b' :: nlInd (ind + 2) ++ dumpStr k ++ ':' :: ' ' :: dumpsVal (ind + 2) v ++
        dumpsMembers (ind + 2) kvs ++ nlInd ind ++ ['\x7d'] := by
  simp only [dumpsVal]

theorem dumpsItems_nil (ind : Nat) : dumpsItems ind [] = [] := by
  simp only [dumpsItems]

theorem dumpsItems_cons (ind : Nat) (x : JVal) (xs : List JVal) :
    dumpsItems ind (x :: xs) = ',' :: nlInd ind ++ dumpsVal ind x ++ dumpsItems ind xs := by
  simp only [dumpsItems]

theorem dumpsMembers_nil (ind : Nat) : dumpsMembers ind [] = [] := by
  simp only [dumpsMembers]

theorem dumpsMembers_cons (ind : Nat) (k : List Char) (v : JVal)
    (kvs : List (List Char × JVal)) :
    dumpsMembers ind ((k, v) :: kvs) =
      ',' :: nlInd ind ++ dumpStr k ++ ':' :: ' ' :: dumpsVal ind v ++
        dumpsMembers ind kvs := by
  simp only [dumpsMembers]

-- need equations / positivity

theorem needJ_pos (v : JVal) : 1 ≤ needJ v := by
  cases v <;> simp [needJ]

theorem needJ_jarr_cons (x : JVal) (xs : List JVal) :
    needJ (JVal.jarr (x :: xs)) = 1 + (1 + max (needJ x) (needItems xs)) := by
  simp only [needJ, needItems]

theorem needJ_jobj_cons (k : List Char) (v : JVal) (kvs : List (List Char × JVal)) :
    needJ (JVal.jobj ((k, v) :: kvs)) = 1 + (1 + max (needJ v) (needMembers kvs)) := by
  simp only [needJ, needMembers]

theorem needItems_cons (x : JVal) (xs : List JVal) :
    needItems (x :: xs) = 1 + max (needJ x) (needItems xs) := by
  simp only [needItems]

theorem needMembers_cons (k : List Char) (v : JVal) (kvs : List (List Char × JVal)) :
    needMembers ((k, v) :: kvs) = 1 + max (needJ v) (needMembers kvs) := by
  simp only [needMembers]

-- canon extraction

theorem canonV_jfloat (m : Int) (e : Nat) (h : canonV (JVal.jfloat m e)) : 1 ≤ e := by
  simp only [canonV] at h
  exact h

theorem canonV_jarr (xs : List JVal) (h : canonV (JVal.jarr xs)) : canonItems xs := by
  simp only [canonV] at h
  exact h

theorem canonV_jobj (kvs : List (List Char × JVal)) (h : canonV (JVal.jobj kvs)) :
    canonMembers kvs := by
  simp only [canonV] at h
  exact h

theorem canonItems_cons (x : JVal) (xs : List JVal) (h : canonItems (x :: xs)) :
    canonV x ∧ canonItems xs := by
  simp only [canonItems] at h
  exact h

theorem canonMembers_cons (k : List Char) (v : JVal) (kvs : List (List Char × JVal))
    (h : canonMembers ((k, v) :: kvs)) : canonV v ∧ canonMembers kvs := by
  simp only [canonMembers] at h
  exact h

-- ===== whitespace lemmas =====

theorem skipWs_nil : skipWs [] = [] := rfl

theorem skipWs_cons_ws (c : Char) (l : List Char) (h : jsonWsChar c = true) :
    skipWs (c :: l) = skipWs l := by
  simp [skipWs, List.dropWhile_cons, h]

theorem skipWs_cons_not_ws (c : Char) (l : List Char) (h : jsonWsChar c = false) :
    skipWs (c :: l) = c :: l := by
  simp [skipWs, List.dropWhile_cons, h]

theorem skipWs_append_ws (w l : List Char) (hw : allWs w = true) :
    skipWs (w ++ l) = skipWs l := by
  induction w with
  | nil => rfl
  | cons c t ih =>
    simp [allWs] at hw
    rw [List.cons_append, skipWs_cons_ws c _ hw.1]
    exact ih (by simp [allWs, List.all_eq_true]; exact hw.2)

theorem allWs_nlInd (ind : Nat) : allWs (nlInd ind) = true := by
  simp [allWs, nlInd, List.all_eq_true, List.mem_replicate]
  exact ⟨by decide, Or.inr (by decide)⟩

theorem allWs_nil : allWs [] = true := rfl

theorem allWs_space : allWs [' '] = true := by decide

-- ===== head shape of a dump =====

theorem digit_head_facts (c : Char) (h : Char.isDigit c = true) :
    jsonWsChar c = false ∧ (c == ']') = false ∧ (c == '\x7d') = false ∧
    (c == '\x22') = false ∧ (c == '[') = false ∧ (c == '\x7b') = false ∧
    (c == ',') = false := by
  simp only [Char.isDigit] at h
  have hand := (Bool.and_eq_true _ _).mp h
  have h48 : 48 ≤ c.toNat := by
    have := hand.1
    simp [decide_eq_true_eq] at this
    exact this
  have h57 : c.toNat ≤ 57 := by
    have := hand.2
    simp [decide_eq_true_eq] at this
    exact this
  refine ⟨?_, ?_, ?_, ?_, ?_, ?_, ?_⟩
  · simp [jsonWsChar]
    refine ⟨?_, ?_, ?_, ?_⟩ <;> (intro he; subst he; simp at h48 h57)
  all_goals
    rw [beq_eq_false_iff_ne]
    intro he; subst he; simp at h48 h57

-- ===== leaf parseVal lemmas =====

theorem parseVal_number (fuel : Nat) (body rest w : List Char) (res : JVal)
    (hw : allWs w = true)
    (hbody : ∃ c t, body = c :: t ∧ (c = '-' ∨ Char.isDigit c = true))
    (hpn : parseNumber (body ++ rest) = some (res, rest)) :
    parseVal (fuel + 1) (w ++ body ++ rest) = some (res, rest) := by
  obtain ⟨c, t, hb, hc⟩ := hbody
  subst hb
  have hcw : jsonWsChar c = false := by
    rcases hc with hc | hc
    · subst hc; decide
    · exact (digit_head_facts c hc).1
  have hskip : skipWs (w ++ (c :: t) ++ rest) = c :: (t ++ rest) := by
    rw [List.append_assoc, skipWs_append_ws _ _ hw, List.cons_append,
      skipWs_cons_not_ws _ _ hcw]
  have hq : (c == '\x22') = false := by
    rcases hc with hc | hc
    · subst hc; decide
    · exact (digit_head_facts c hc).2.2.2.1
  have hbr : (c == '[') = false := by
    rcases hc with hc | hc
    · subst hc; decide
    · exact (digit_head_facts c hc).2.2.2.2.1
  have hcu : (c == '\x7b') = false := by
    rcases hc with hc | hc
    · subst hc; decide
    · exact (digit_head_facts c hc).2.2.2.2.2.1
  have hnum : (headEq (c :: (t ++ rest)) '-' || headIsDigit (c :: (t ++ rest))) = true := by
    rcases hc with hc | hc
    · subst hc; simp [headEq]
    · simp [headEq, headIsDigit, hc]
  rw [parseVal_succ, hskip]
  simp only [headEq_cons] at hnum
  simp only [headEq_cons, hq, hbr, hcu, Bool.false_eq_true, if_false, hnum, if_true]
  exact hpn

theorem parseVal_leaf_int (fuel : Nat) (n : Int) (ind : Nat) (w rest : List Char)
    (hw : allWs w = true) (hrest : numStop rest = true) :
    parseVal (fuel + 1) (w ++ dumpsVal ind (JVal.jint n) ++ rest) =
      some (JVal.jint n, rest) := by
  rw [dumpsVal_jint]
  apply parseVal_number fuel _ _ _ _ hw _ (parseNumber_intRepr n rest hrest)
  obtain ⟨ha, hb, _⟩ := natToDigits_spec n.natAbs
  by_cases hneg : n < 0
  · exact ⟨'-', natToDigits n.natAbs, by simp [intRepr, hneg], Or.inl rfl⟩
  · cases hD : natToDigits n.natAbs with
    | nil => exact absurd hD hb
    | cons d ds =>
      exact ⟨d, ds, by simp [intRepr, hneg, hD], Or.inr (ha d (hD ▸ List.mem_cons_self _ _))⟩

theorem parseVal_leaf_float (fuel : Nat) (m : Int) (e : Nat) (ind : Nat) (w rest : List Char)
    (hw : allWs w = true) (he : 1 ≤ e) (hrest : numStop rest = true) :
    parseVal (fuel + 1) (w ++ dumpsVal ind (JVal.jfloat m e) ++ rest) =
      some (JVal.jfloat m e, rest) := by
  rw [dumpsVal_jfloat]
  apply parseVal_number fuel _ _ _ _ hw _ (parseNumber_floatRepr m e rest he hrest)
  obtain ⟨ha, hb, _⟩ := natToDigits_spec (m.natAbs / 10 ^ e)
  by_cases hneg : m < 0
  · refine ⟨'-', natToDigits (m.natAbs / 10 ^ e) ++ '.' :: fracDigits e m.natAbs, ?_, Or.inl rfl⟩
    simp [floatRepr, hneg]
  · cases hD : natToDigits (m.natAbs / 10 ^ e) with
    | nil => exact absurd hD hb
    | cons d ds =>
      refine ⟨d, ds ++ '.' :: fracDigits e m.natAbs, ?_,
        Or.inr (ha d (hD ▸ List.mem_cons_self _ _))⟩
      simp [floatRepr, hneg, hD]

theorem parseVal_leaf_str (fuel : Nat) (s : List Char) (ind : Nat) (w rest : List Char)
    (hw : allWs w = true) :
    parseVal (fuel + 1) (w ++ dumpsVal ind (JVal.jstr s) ++ rest) =
      some (JVal.jstr s, rest) := by
  rw [dumpsVal_jstr]
  have hshape : w ++ dumpStr s ++ rest = w ++ ('\x22' :: (escapeStr s ++ '\x22' :: rest)) := by
    simp [dumpStr]
  rw [hshape]
  have hskip : skipWs (w ++ ('\x22' :: (escapeStr s ++ '\x22' :: rest))) =
      '\x22' :: (escapeStr s ++ '\x22' :: rest) := by
    rw [skipWs_append_ws _ _ hw, skipWs_cons_not_ws _ _ (by decide)]
  rw [parseVal_succ, hskip]
  simp only [headEq_cons, beq_self_eq_true, if_true, List.drop_one, List.tail_cons]
  rw [parseStrBody_escape]
  rfl

-- ===== numStop helpers =====

theorem ws_char_cases (c : Char) (h : jsonWsChar c = true) :
    c = ' ' ∨ c = '\t' ∨ c = '\n' ∨ c = '\r' := by
  simpa [jsonWsChar, decide_eq_true_eq] using h

theorem numStop_ws_cons (w : List Char) (b : Char) (rest : List Char) (hw : allWs w = true)
    (hb : (b.isDigit || b = '.') = false) : numStop (w ++ b :: rest) = true := by
  cases w with
  | nil => simp [numStop, hb]
  | cons c t =>
    simp [allWs, List.all_eq_true] at hw
    rcases ws_char_cases c hw.1 with h | h | h | h <;> subst h <;> simp [numStop]

theorem numStop_comma (l : List Char) : numStop (',' :: l) = true := rfl

-- ===== head shape of a dump =====

theorem dumpsVal_head_facts (ind : Nat) (v : JVal) :
    ∃ c t, dumpsVal ind v = c :: t ∧ jsonWsChar c = false ∧
      (c == ']') = false ∧ (c == '\x7d') = false := by
  cases v with
  | jint n =>
    rw [dumpsVal_jint]
    obtain ⟨ha, hb, _⟩ := natToDigits_spec n.natAbs
    by_cases hneg : n < 0
    · exact ⟨'-', natToDigits n.natAbs, by simp [intRepr, hneg], by decide, by decide, by decide⟩
    · cases hD : natToDigits n.natAbs with
      | nil => exact absurd hD hb
      | cons d ds =>
        have hd := ha d (hD ▸ List.mem_cons_self _ _)
        exact ⟨d, ds, by simp [intRepr, hneg, hD], (digit_head_facts d hd).1,
          (digit_head_facts d hd).2.1, (digit_head_facts d hd).2.2.1⟩
  | jfloat m e =>
    rw [dumpsVal_jfloat]
    obtain ⟨ha, hb, _⟩ := natToDigits_spec (m.natAbs / 10 ^ e)
    by_cases hneg : m < 0
    · exact ⟨'-', natToDigits (m.natAbs / 10 ^ e) ++ '.' :: fracDigits e m.natAbs,
        by simp [floatRepr, hneg], by decide, by decide, by decide⟩
    · cases hD : natToDigits (m.natAbs / 10 ^ e) with
      | nil => exact absurd hD hb
      | cons d ds =>
        have hd := ha d (hD ▸ List.mem_cons_self _ _)
        exact ⟨d, ds ++ '.' :: fracDigits e m.natAbs, by simp [floatRepr, hneg, hD],
          (digit_head_facts d hd).1, (digit_head_facts d hd).2.1,
          (digit_head_facts d hd).2.2.1⟩
  | jstr s =>
    exact ⟨'\x22', escapeStr s ++ ['\x22'], by rw [dumpsVal_jstr]; simp [dumpStr],
      by decide, by decide, by decide⟩
  | jarr xs =>
    cases xs with
    | nil => exact ⟨'[', [']'], by rw [dumpsVal_jarr_nil], by decide, by decide, by decide⟩
    | cons x xs =>
      exact ⟨'[', nlInd (ind + 2) ++ dumpsVal (ind + 2) x ++ dumpsItems (ind + 2) xs ++
        nlInd ind ++ [']'], by rw [dumpsVal_jarr_cons]; simp [List.append_assoc],
        by decide, by decide, by decide⟩
  | jobj kvs =>
    cases kvs with
    | nil => exact ⟨'\x7b', ['\x7d'], by rw [dumpsVal_jobj_nil], by decide, by decide, by decide⟩
    | cons kv kvs =>
      obtain ⟨k, v⟩ := kv
      exact ⟨'\x7b', nlInd (ind + 2) ++ dumpStr k ++ ':' :: ' ' :: dumpsVal (ind + 2) v ++
        dumpsMembers (ind + 2) kvs ++ nlInd ind ++ ['\x7d'],
        by rw [dumpsVal_jobj_cons]; simp [List.append_assoc], by decide, by decide, by decide⟩

theorem skipWs_dump_headed (ind : Nat) (v : JVal) (Y : List Char) :
    skipWs (dumpsVal ind v ++ Y) = dumpsVal ind v ++ Y ∧
    headEq (dumpsVal ind v ++ Y) ']' = false ∧
    headEq (dumpsVal ind v ++ Y) '\x7d' = false := by
  obtain ⟨c, t, hd, h1, h2, h3⟩ := dumpsVal_head_facts ind v
  rw [hd, List.cons_append]
  exact ⟨skipWs_cons_not_ws _ _ h1, by rw [headEq_cons]; exact h2,
    by rw [headEq_cons]; exact h3⟩

/--
Round trip of the serializer and the parser: the three parsing functions
recover exactly the value, items or members whose dump (with arbitrary
leading whitespace, and for the value an arbitrary non-number-extending
continuation) they read, for any fuel at least the structural `need` of
the value.
-/
theorem parse_dumps_trio : ∀ fuel : Nat,
    (∀ v ind w rest, needJ v ≤ fuel → canonV v → allWs w = true → numStop rest = true →
      parseVal fuel (w ++ (dumpsVal ind v ++ rest)) = some (v, rest)) ∧
    (∀ x xs ind w1 w2 rest, needItems (x :: xs) ≤ fuel → canonItems (x :: xs) →
      allWs w1 = true → allWs w2 = true →
      parseItems fuel (w1 ++ (dumpsVal ind x ++ (dumpsItems ind xs ++ (w2 ++ ']' :: rest)))) =
        some (x :: xs, rest)) ∧
    (∀ k v kvs ind w1 w2 rest, needMembers ((k, v) :: kvs) ≤ fuel →
      canonMembers ((k, v) :: kvs) → allWs w1 = true → allWs w2 = true →
      parseMembers fuel (w1 ++ ('\x22' :: (escapeStr k ++ ('\x22' :: ':' :: ' ' ::
        (dumpsVal ind v ++ (dumpsMembers ind kvs ++ (w2 ++ '\x7d' :: rest))))))) =
        some ((k, v) :: kvs, rest)) := by
  intro fuel
  induction fuel with
  | zero =>
    refine ⟨?_, ?_, ?_⟩
    · intro v ind w rest hn
      have := needJ_pos v
      omega
    · intro x xs ind w1 w2 rest hn
      rw [needItems_cons] at hn
      omega
    · intro k v kvs ind w1 w2 rest hn
      rw [needMembers_cons] at hn
      omega
  | succ fuel ih =>
    obtain ⟨ihP, ihQ, ihR⟩ := ih
    refine ⟨?_, ?_, ?_⟩
    · -- parseVal
      intro v ind w rest hn hcanon hw hrest
      cases v with
      | jint n =>
        rw [← List.append_assoc]
        exact parseVal_leaf_int fuel n ind w rest hw hrest
      | jfloat m e =>
        rw [← List.append_assoc]
        exact parseVal_leaf_float fuel m e ind w rest hw (canonV_jfloat m e hcanon) hrest
      | jstr s =>
        rw [← List.append_assoc]
        exact parseVal_leaf_str fuel s ind w rest hw
      | jarr xs =>
        cases xs with
        | nil =>
          rw [dumpsVal_jarr_nil]
          have hshape : w ++ (['[', ']'] ++ rest) = w ++ ('[' :: ']' :: rest) := by simp
          rw [hshape]
          have hskip : skipWs (w ++ ('[' :: ']' :: rest)) = '[' :: ']' :: rest := by
            rw [skipWs_append_ws _ _ hw, skipWs_cons_not_ws _ _ (by decide)]
          rw [parseVal_succ, hskip]
          simp only [headEq_cons, List.drop_succ_cons, List.drop_zero,
            skipWs_cons_not_ws _ _ (by decide : jsonWsChar ']' = false)]
          rw [if_neg (by decide), if_pos (by decide)]
          rw [if_pos (by simp [headEq_cons])]
        | cons x xs =>
          rw [dumpsVal_jarr_cons]
          have hshape : w ++ (('[' :: nlInd (ind + 2) ++ dumpsVal (ind + 2) x ++
              dumpsItems (ind + 2) xs ++ nlInd ind ++ [']']) ++ rest) =
              w ++ ('[' :: (nlInd (ind + 2) ++ (dumpsVal (ind + 2) x ++
                (dumpsItems (ind + 2) xs ++ (nlInd ind ++ (']' :: rest)))))) := by
            simp [List.append_assoc]
          rw [hshape]
          have hskip : skipWs (w ++ ('[' :: (nlInd (ind + 2) ++ (dumpsVal (ind + 2) x ++
              (dumpsItems (ind + 2) xs ++ (nlInd ind ++ (']' :: rest))))))) =
              '[' :: (nlInd (ind + 2) ++ (dumpsVal (ind + 2) x ++
                (dumpsItems (ind + 2) xs ++ (nlInd ind ++ (']' :: rest))))) := by
            rw [skipWs_append_ws _ _ hw, skipWs_cons_not_ws _ _ (by decide)]
          rw [parseVal_succ, hskip]
          have hsk2 : skipWs (nlInd (ind + 2) ++ (dumpsVal (ind + 2) x ++
              (dumpsItems (ind + 2) xs ++ (nlInd ind ++ (']' :: rest))))) =
              dumpsVal (ind + 2) x ++
                (dumpsItems (ind + 2) xs ++ (nlInd ind ++ (']' :: rest))) := by
            rw [skipWs_append_ws _ _ (allWs_nlInd _)]
            exact (skipWs_dump_headed _ _ _).1
          simp only [headEq_cons, List.drop_succ_cons, List.drop_zero, hsk2]
          rw [if_neg (by decide), if_pos (by decide),
            if_neg (by rw [(skipWs_dump_headed _ _ _).2.1]; exact Bool.false_ne_true)]
          have hq := ihQ x xs (ind + 2) (nlInd (ind + 2)) (nlInd ind) rest
            (by rw [needJ_jarr_cons] at hn; rw [needItems_cons]; omega)
            (canonV_jarr _ hcanon) (allWs_nlInd _) (allWs_nlInd _)
          rw [hq]
          rfl
      | jobj kvs =>
        cases kvs with
        | nil =>
          rw [dumpsVal_jobj_nil]
          have hshape : w ++ (['\x7b', '\x7d'] ++ rest) = w ++ ('\x7b' :: '\x7d' :: rest) := by
            simp
          rw [hshape]
          have hskip : skipWs (w ++ ('\x7b' :: '\x7d' :: rest)) = '\x7b' :: '\x7d' :: rest := by
            rw [skipWs_append_ws _ _ hw, skipWs_cons_not_ws _ _ (by decide)]
          rw [parseVal_succ, hskip]
          simp only [headEq_cons, List.drop_succ_cons, List.drop_zero,
            skipWs_cons_not_ws _ _ (by decide : jsonWsChar '\x7d' = false)]
          rw [if_neg (by decide), if_neg (by decide), if_pos (by decide)]
          rw [if_pos (by simp [headEq_cons])]
        | cons kv kvs =>
          obtain ⟨k, v⟩ := kv
          rw [dumpsVal_jobj_cons]
          have hshape : w ++ (('\x7b' :: nlInd (ind + 2) ++ dumpStr k ++ ':' :: ' ' ::
              dumpsVal (ind + 2) v ++ dumpsMembers (ind + 2) kvs ++ nlInd ind ++
              ['\x7d']) ++ rest) =
              w ++ ('\x7b' :: (nlInd (ind + 2) ++ ('\x22' :: (escapeStr k ++ ('\x22' :: ':' ::
                ' ' :: (dumpsVal (ind + 2) v ++ (dumpsMembers (ind + 2) kvs ++
                (nlInd ind ++ ('\x7d' :: rest))))))))) := by
            simp [List.append_assoc, dumpStr]
          rw [hshape]
          have hskip : skipWs (w ++ ('\x7b' :: (nlInd (ind + 2) ++ ('\x22' :: (escapeStr k ++
              ('\x22' :: ':' :: ' ' :: (dumpsVal (ind + 2) v ++ (dumpsMembers (ind + 2) kvs ++
              (nlInd ind ++ ('\x7d' :: rest)))))))))) =
              '\x7b' :: (nlInd (ind + 2) ++ ('\x22' :: (escapeStr k ++ ('\x22' :: ':' :: ' ' ::
                (dumpsVal (ind + 2) v ++ (dumpsMembers (ind + 2) kvs ++
                (nlInd ind ++ ('\x7d' :: rest)))))))) := by
            rw [skipWs_append_ws _ _ hw, skipWs_cons_not_ws _ _ (by decide)]
          rw [parseVal_succ, hskip]
          have hsk2 : skipWs (nlInd (ind + 2) ++ ('\x22' :: (escapeStr k ++ ('\x22' :: ':' ::
              ' ' :: (dumpsVal (ind + 2) v ++ (dumpsMembers (ind + 2) kvs ++
              (nlInd ind ++ ('\x7d' :: rest)))))))) =
              '\x22' :: (escapeStr k ++ ('\x22' :: ':' :: ' ' :: (dumpsVal (ind + 2) v ++
                (dumpsMembers (ind + 2) kvs ++ (nlInd ind ++ ('\x7d' :: rest)))))) := by
            rw [skipWs_append_ws _ _ (allWs_nlInd _), skipWs_cons_not_ws _ _ (by decide)]
          simp only [headEq_cons, List.drop_succ_cons, List.drop_zero, hsk2]
          rw [if_neg (by decide), if_neg (by decide), if_pos (by decide),
            if_neg (by decide)]
          have hr := ihR k v kvs (ind + 2) (nlInd (ind + 2)) (nlInd ind) rest
            (by rw [needJ_jobj_cons] at hn; rw [needMembers_cons]; omega)
            (canonV_jobj _ hcanon) (allWs_nlInd _) (allWs_nlInd _)
          rw [hr]
          rfl
    · -- parseItems
      intro x xs ind w1 w2 rest hn hc hw1 hw2
      rw [parseItems_succ]
      obtain ⟨hcx, hcxs⟩ := canonItems_cons x xs hc
      rw [needItems_cons] at hn
      cases xs with
      | nil =>
        rw [dumpsItems_nil]
        have hP := ihP x ind w1 (w2 ++ ']' :: rest) (by omega) hcx hw1
          (numStop_ws_cons w2 ']' rest hw2 (by decide))
        rw [show ([] : List Char) ++ (w2 ++ ']' :: rest) = w2 ++ ']' :: rest from by simp] at *
        rw [hP]
        have hsk : skipWs (w2 ++ ']' :: rest) = ']' :: rest := by
          rw [skipWs_append_ws _ _ hw2, skipWs_cons_not_ws _ _ (by decide)]
        simp only [Option.some_bind, hsk, headEq_cons, List.drop_succ_cons, List.drop_zero]
        rw [if_neg (by decide), if_pos (by decide)]
      | cons y ys =>
        rw [dumpsItems_cons]
        have hstep : (',' :: nlInd ind ++ dumpsVal ind y ++ dumpsItems ind ys) ++
            (w2 ++ ']' :: rest) =
            ',' :: (nlInd ind ++ (dumpsVal ind y ++ (dumpsItems ind ys ++
              (w2 ++ ']' :: rest)))) := by
          simp [List.append_assoc]
        rw [hstep]
        have hP := ihP x ind w1 (',' :: (nlInd ind ++ (dumpsVal ind y ++ (dumpsItems ind ys ++
          (w2 ++ ']' :: rest))))) (by omega) hcx hw1 (numStop_comma _)
        rw [hP]
        have hsk : skipWs (',' :: (nlInd ind ++ (dumpsVal ind y ++ (dumpsItems ind ys ++
            (w2 ++ ']' :: rest))))) = ',' :: (nlInd ind ++ (dumpsVal ind y ++
            (dumpsItems ind ys ++ (w2 ++ ']' :: rest)))) :=
          skipWs_cons_not_ws _ _ (by decide)
        simp only [Option.some_bind, hsk, headEq_cons, List.drop_succ_cons, List.drop_zero]
        rw [if_pos (by decide)]
        have hq := ihQ y ys ind (nlInd ind) w2 rest
          (by rw [needItems_cons] at hn ⊢; omega) hcxs
          (allWs_nlInd _) hw2
        rw [hq]
        rfl
    · -- parseMembers
      intro k v kvs ind w1 w2 rest hn hc hw1 hw2
      rw [parseMembers_succ]
      obtain ⟨hcv, hckvs⟩ := canonMembers_cons k v kvs hc
      rw [needMembers_cons] at hn
      have hsk1 : skipWs (w1 ++ ('\x22' :: (escapeStr k ++ ('\x22' :: ':' :: ' ' ::
          (dumpsVal ind v ++ (dumpsMembers ind kvs ++ (w2 ++ '\x7d' :: rest))))))) =
          '\x22' :: (escapeStr k ++ ('\x22' :: ':' :: ' ' :: (dumpsVal ind v ++
            (dumpsMembers ind kvs ++ (w2 ++ '\x7d' :: rest))))) := by
        rw [skipWs_append_ws _ _ hw1, skipWs_cons_not_ws _ _ (by decide)]
      rw [hsk1]
      simp only [headEq_cons, List.drop_succ_cons, List.drop_zero]
      rw [if_pos (by decide)]
      rw [parseStrBody_escape k ((':' : Char) :: ' ' :: (dumpsVal ind v ++
        (dumpsMembers ind kvs ++ (w2 ++ '\x7d' :: rest))))]
      have hsk2 : skipWs ((':' : Char) :: ' ' :: (dumpsVal ind v ++
          (dumpsMembers ind kvs ++ (w2 ++ '\x7d' :: rest)))) =
          ':' :: ' ' :: (dumpsVal ind v ++ (dumpsMembers ind kvs ++ (w2 ++ '\x7d' :: rest))) :=
        skipWs_cons_not_ws _ _ (by decide)
      simp only [Option.some_bind, hsk2, headEq_cons, List.drop_succ_cons, List.drop_zero]
      rw [if_pos (by decide)]
      cases kvs with
      | nil =>
        rw [dumpsMembers_nil]
        have hP := ihP v ind [' '] (w2 ++ '\x7d' :: rest) (by omega) hcv (by decide)
          (numStop_ws_cons w2 '\x7d' rest hw2 (by decide))
        rw [show ([' '] : List Char) ++ (dumpsVal ind v ++ (w2 ++ '\x7d' :: rest)) =
          ' ' :: (dumpsVal ind v ++ (w2 ++ '\x7d' :: rest)) from rfl] at hP
        rw [show (([] : List Char) ++ (w2 ++ '\x7d' :: rest)) = w2 ++ '\x7d' :: rest
          from by simp] at *
        rw [hP]
        have hsk3 : skipWs (w2 ++ '\x7d' :: rest) = '\x7d' :: rest := by
          rw [skipWs_append_ws _ _ hw2, skipWs_cons_not_ws _ _ (by decide)]
        simp only [Option.some_bind, hsk3, headEq_cons, List.drop_succ_cons, List.drop_zero]
        rw [if_neg (by decide), if_pos (by decide)]
      | cons kv2 kvs2 =>
        obtain ⟨k2, v2⟩ := kv2
        rw [dumpsMembers_cons]
        have hstep : (',' :: nlInd ind ++ dumpStr k2 ++ ':' :: ' ' :: dumpsVal ind v2 ++
            dumpsMembers ind kvs2) ++ (w2 ++ '\x7d' :: rest) =
            ',' :: (nlInd ind ++ ('\x22' :: (escapeStr k2 ++ ('\x22' :: ':' :: ' ' ::
              (dumpsVal ind v2 ++ (dumpsMembers ind kvs2 ++ (w2 ++ '\x7d' :: rest))))))) := by
          simp [List.append_assoc, dumpStr]
        rw [hstep]
        have hP := ihP v ind [' '] (',' :: (nlInd ind ++ ('\x22' :: (escapeStr k2 ++
          ('\x22' :: ':' :: ' ' :: (dumpsVal ind v2 ++ (dumpsMembers ind kvs2 ++
          (w2 ++ '\x7d' :: rest)))))))) (by omega) hcv (by decide) (numStop_comma _)
        rw [show ([' '] : List Char) ++ (dumpsVal ind v ++ (',' :: (nlInd ind ++
          ('\x22' :: (escapeStr k2 ++ ('\x22' :: ':' :: ' ' :: (dumpsVal ind v2 ++
          (dumpsMembers ind kvs2 ++ (w2 ++ '\x7d' :: rest))))))))) =
          ' ' :: (dumpsVal ind v ++ (',' :: (nlInd ind ++ ('\x22' :: (escapeStr k2 ++
          ('\x22' :: ':' :: ' ' :: (dumpsVal ind v2 ++ (dumpsMembers ind kvs2 ++
          (w2 ++ '\x7d' :: rest))))))))) from rfl] at hP
        rw [hP]
        have hsk3 : skipWs (',' :: (nlInd ind ++ ('\x22' :: (escapeStr k2 ++
            ('\x22' :: ':' :: ' ' :: (dumpsVal ind v2 ++ (dumpsMembers ind kvs2 ++
            (w2 ++ '\x7d' :: rest)))))))) = ',' :: (nlInd ind ++ ('\x22' :: (escapeStr k2 ++
            ('\x22' :: ':' :: ' ' :: (dumpsVal ind v2 ++ (dumpsMembers ind kvs2 ++
            (w2 ++ '\x7d' :: rest))))))) :=
          skipWs_cons_not_ws _ _ (by decide)
        simp only [Option.some_bind, hsk3, headEq_cons, List.drop_succ_cons, List.drop_zero]
        rw [if_pos (by decide)]
        have hr := ihR k2 v2 kvs2 ind (nlInd ind) w2 rest
          (by rw [needMembers_cons] at hn ⊢; omega) hckvs (allWs_nlInd _) hw2
        rw [hr]
        rfl

-- ===== fuel bound =====

theorem need_le_dumps_trio : ∀ N : Nat,
    (∀ v : JVal, sizeOf v ≤ N → ∀ ind, needJ v ≤ (dumpsVal ind v).length + 1) ∧
    (∀ xs : List JVal, sizeOf xs ≤ N → ∀ ind, needItems xs ≤ (dumpsItems ind xs).length + 1) ∧
    (∀ kvs : List (List Char × JVal), sizeOf kvs ≤ N → ∀ ind,
      needMembers kvs ≤ (dumpsMembers ind kvs).length + 1) := by
  intro N
  induction N with
  | zero =>
    refine ⟨?_, ?_, ?_⟩
    · intro v hv; cases v <;> simp at hv
    · intro xs hxs; cases xs <;> simp at hxs
    · intro kvs hkvs; cases kvs <;> simp at hkvs
  | succ N ih =>
    obtain ⟨ihV, ihI, ihM⟩ := ih
    refine ⟨?_, ?_, ?_⟩
    · intro v hv ind
      cases v with
      | jint n => simp [needJ]
      | jfloat m e => simp [needJ]
      | jstr s => simp [needJ]
      | jarr xs =>
        have hxs : sizeOf xs ≤ N := by simp at hv; omega
        have h1 := ihI xs hxs (ind + 2)
        cases xs with
        | nil => simp [needJ, needItems, dumpsVal_jarr_nil]
        | cons x xs =>
          have h2 := ihV x (by simp at hv; omega) (ind + 2)
          have h3 := ihI xs (by simp at hv; omega) (ind + 2)
          rw [dumpsVal_jarr_cons]
          simp only [needJ, needItems]
          simp [List.length_append, nlInd]
          omega
      | jobj kvs =>
        have hkvs : sizeOf kvs ≤ N := by simp at hv; omega
        cases kvs with
        | nil => simp [needJ, needMembers, dumpsVal_jobj_nil]
        | cons kv kvs =>
          obtain ⟨k, v⟩ := kv
          have h2 := ihV v (by simp at hv; omega) (ind + 2)
          have h3 := ihM kvs (by simp at hv; omega) (ind + 2)
          rw [dumpsVal_jobj_cons]
          simp only [needJ, needMembers]
          simp [List.length_append, nlInd]
          omega
    · intro xs hxs ind
      cases xs with
      | nil => simp [needItems, dumpsItems_nil]
      | cons x xs =>
        have h2 := ihV x (by simp at hxs; omega) ind
        have h3 := ihI xs (by simp at hxs; omega) ind
        rw [dumpsItems_cons]
        simp only [needItems]
        simp [List.length_append, nlInd]
        omega
    · intro kvs hkvs ind
      cases kvs with
      | nil => simp [needMembers, dumpsMembers_nil]
      | cons kv kvs =>
        obtain ⟨k, v⟩ := kv
        have h2 := ihV v (by simp at hkvs; omega) ind
        have h3 := ihM kvs (by simp at hkvs; omega) ind
        rw [dumpsMembers_cons]
        simp only [needMembers]
        simp [List.length_append, nlInd]
        omega

theorem needJ_le_dumps (v : JVal) (ind : Nat) :
    needJ v ≤ (dumpsVal ind v).length + 1 :=
  (need_le_dumps_trio (sizeOf v)).1 v (Nat.le_refl _) ind

-- ===== loads of dumps =====

theorem jsonLoads_jsonDumps (v : JVal) (hc : canonV v) :
    jsonLoads (jsonDumps v) = some v := by
  have h := (parse_dumps_trio ((dumpsVal 0 v).length + 1)).1 v 0 [] []
    (needJ_le_dumps v 0) hc rfl rfl
  simp only [List.nil_append, List.append_nil] at h
  unfold jsonLoads jsonDumps
  rw [h]
  rfl

-- ===== canonicity of the generated record =====

theorem canonV_ite (c : Prop) [Decidable c] (a b : JVal) (ha : canonV a) (hb : canonV b) :
    canonV (if c then a else b) := by
  by_cases h : c
  · rwa [if_pos h]
  · rwa [if_neg h]

theorem canonV_jstr (s : List Char) : canonV (JVal.jstr s) := by
  simp [canonV]

theorem canonV_jint (n : Int) : canonV (JVal.jint n) := by
  simp [canonV]

theorem canonItems_map_jstr (l : List (List Char)) : canonItems (l.map JVal.jstr) := by
  induction l with
  | nil => simp [canonItems]
  | cons x xs ih => simpa [canonItems, canonV] using ih

theorem canonV_jarr_strs (l : List (List Char)) : canonV (JVal.jarr (l.map JVal.jstr)) := by
  have h := canonItems_map_jstr l
  simp [canonV]
  exact h

theorem canonV_entities_empty : canonV entities_empty := by
  simp [entities_empty, canonV, canonMembers, canonItems]

theorem canonV_entities_of (t : List Char) : canonV (entities_of t) := by
  simp only [entities_of, canonV, canonMembers, canonItems, and_true, true_and]
  exact ⟨canonItems_map_jstr _, canonItems_map_jstr _, canonItems_map_jstr _⟩

theorem canonV_gmExplicit (reada : Option (Int × Nat)) (procDate : List Char)
    (elapsed : Int × Nat) (text0 filename : List Char)
    (he : 1 ≤ elapsed.2) (hr : ∀ f, reada = some f → 1 ≤ f.2) :
    canonV (gmExplicit reada procDate elapsed text0 filename) := by
  simp only [gmExplicit, canonV, canonMembers, canonItems, and_true, true_and]
  refine ⟨?_, ⟨?_, ?_, ?_⟩, he, ?_⟩
  · cases reada with
    | none => simp [canonV]
    | some f =>
      have hf := hr f rfl
      by_cases h : gmText text0 = [] ∨ pyStrip (gmText text0) = []
      · simp only [if_pos h, canonV]
      · simp only [if_neg h, canonV]
        exact hf
  · exact canonV_ite _ _ _ (canonV_jstr _) (canonV_jstr _)
  · apply canonV_ite
    · simp [canonV, canonItems]
    · exact canonV_jarr_strs _
  · exact canonV_ite _ _ _ canonV_entities_empty (canonV_entities_of _)
  · apply canonV_ite <;> simp [canonV]

-- ===== C4 =====

/--
C4: serializing the metadata record with `json.dumps(metadata, indent=2)`
and parsing the result back with `json.loads` returns the record exactly:
no field is lost or altered.  Floats are modelled as exact decimals; the
hypotheses state that the environment-supplied decimals (elapsed time,
readability score) carry at least one fraction digit, which is what
Python float `repr` guarantees.
-/
theorem json_roundtrip_record (reada : Option (Int × Nat)) (procDate : List Char)
    (elapsed : Int × Nat) (text0 filename : List Char)
    (he : 1 ≤ elapsed.2) (hr : ∀ f, reada = some f → 1 ≤ f.2) :
    jsonLoads (jsonDumps
        (generate_basic_metadata_from_text reada procDate elapsed text0 filename)) =
      some (generate_basic_metadata_from_text reada procDate elapsed text0 filename) := by
  rw [generate_norm]
  exact jsonLoads_jsonDumps _ (canonV_gmExplicit reada procDate elapsed text0 filename he hr)

/-- C4 witness: the round trip at one concrete record. -/
theorem json_roundtrip_record_witness :
    jsonLoads (jsonDumps (generate_basic_metadata_from_text (some (605, 1))
        "2024-01-01 00:00:00".toList (5, 2)
        "Machine learning systems. A short sample.".toList "doc.txt".toList)) =
      some (generate_basic_metadata_from_text (some (605, 1))
        "2024-01-01 00:00:00".toList (5, 2)
        "Machine learning systems. A short sample.".toList "doc.txt".toList) :=
  json_roundtrip_record (some (605, 1)) _ _ _ _ (by decide)
    (fun f hf => by injection hf with h; rw [← h])
